import Mathlib

/-! ST7735 TFT driver (`ophyra_tftdisp.c`): shallow embedding and verified properties

The C functions of `src/ophyra_tftdisp/ophyra_tftdisp.c` are embedded as functions on a
`Machine`: the fields of the driver object together with the log of everything the driver
did to the hardware (pin writes, SPI transfers, delays), oldest event first.

Conventions of the embedding
* every C integer is a Lean `Int`; a conversion to `uint8_t` / `uint16_t` (assignment,
  cast, or passing an `int` expression to a narrower parameter) is written `u8` / `u16`;
  arithmetic between conversions is C `int` arithmetic, which cannot overflow on the
  values that occur here (all operands are below `2^16`);
* a function with `uint8_t` / `uint16_t` parameters converts its arguments on entry, so
  a caller may pass the `int` expression it computes, exactly as the C call does;
* `mp_obj_get_int(args[i])` is the `Int` argument itself;
* a loop whose number of turns is not fixed by its header (`while(1)` in `line`, the outer
  loops of the scaled path of `charfunc` and of `text`) takes a `fuel` argument, one unit
  per turn, and the function returns `none` when the fuel runs out before the loop ends.
-/

namespace OphyraTft

/-! ## Machine integers -/

/-- Conversion of a C `int` to `uint8_t`. -/
def u8 (i : Int) : Int := i % 256

/-- Conversion of a C `int` to `uint16_t`. -/
def u16 (i : Int) : Int := i % 65536

/-! ## Command codes (the `#define CMD_*` lines) -/

def CMD_SWRESET : Int := 0x01
def CMD_SLPOUT : Int := 0x11
def CMD_NORON : Int := 0x13
def CMD_INVOFF : Int := 0x20
def CMD_INVON : Int := 0x21
def CMD_DISPOFF : Int := 0x28
def CMD_DISPON : Int := 0x29
def CMD_CASET : Int := 0x2A
def CMD_RASET : Int := 0x2B
def CMD_RAMWR : Int := 0x2C
def CMD_COLMOD : Int := 0x3A
def CMD_MADCTL : Int := 0x36
def CMD_FRMCTR1 : Int := 0xB1
def CMD_FRMCTR2 : Int := 0xB2
def CMD_FRMCTR3 : Int := 0xB3
def CMD_INVCTR : Int := 0xB4
def CMD_PWCTR1 : Int := 0xC0
def CMD_PWCTR2 : Int := 0xC1
def CMD_PWCTR3 : Int := 0xC2
def CMD_PWCTR4 : Int := 0xC3
def CMD_PWCTR5 : Int := 0xC4
def CMD_VMCTR1 : Int := 0xC5
def CMD_GMCTRP1 : Int := 0xE0
def CMD_GMCTRN1 : Int := 0xE1

/-! ## Hardware events and driver state -/

/-- The four control lines `Pin_DC`, `Pin_CS`, `Pin_RST`, `Pin_BL`. -/
inductive Pin
  | DC
  | CS
  | RST
  | BL
  deriving DecidableEq, Repr

/-- One action of the driver on the hardware: `mp_hal_pin_low`, `mp_hal_pin_high`,
`spi_transfer` (with the bytes it sends) and `mp_hal_delay_ms`. -/
inductive Ev
  | pin_low (p : Pin)
  | pin_high (p : Pin)
  | spi_transfer (data : List Int)
  | delay_ms (ms : Int)
  deriving DecidableEq, Repr

/-- The fields of `struct _tftdisp_class_obj_t` (the SPI handle is the fixed `&spi_obj[0]`
and is not represented). -/
structure tftdisp_class_obj_t where
  power_on : Bool
  inverted : Bool
  backlight_on : Bool
  margin_row : Int
  margin_col : Int
  width : Int
  height : Int
  deriving DecidableEq, Repr

/-- Driver object plus the log of hardware events, oldest first. -/
structure Machine where
  dev : tftdisp_class_obj_t
  bus : List Ev
  deriving DecidableEq, Repr

/-- Append events to the hardware log. -/
def emit (es : List Ev) (m : Machine) : Machine :=
  { m with bus := m.bus ++ es }

/-! ## Bus framing -/

/-- C `write_cmd(int cmd)`. -/
def write_cmd (cmd : Int) (m : Machine) : Machine :=
  emit [Ev.pin_low Pin.DC, Ev.pin_low Pin.CS, Ev.spi_transfer [u8 cmd], Ev.pin_high Pin.CS] m

/-- C `write_data(uint8_t *data, size_t len)`: `data` is the `len` bytes sent. -/
def write_data (data : List Int) (m : Machine) : Machine :=
  emit [Ev.pin_high Pin.DC, Ev.pin_low Pin.CS, Ev.spi_transfer data, Ev.pin_high Pin.CS] m

/-- C `set_window(self, x0, y0, x1, y1)`, all four coordinates `uint8_t`. -/
def set_window (x0 y0 x1 y1 : Int) (m : Machine) : Machine :=
  let x0 := u8 x0
  let y0 := u8 y0
  let x1 := u8 x1
  let y1 := u8 y1
  let m := write_cmd CMD_RASET m
  let m := write_data [0x00, u8 (y0 + m.dev.margin_row), 0x00, u8 (y1 + m.dev.margin_row)] m
  let m := write_cmd CMD_CASET m
  let m := write_data [0x00, u8 (x0 + m.dev.margin_col), 0x00, u8 (x1 + m.dev.margin_col)] m
  write_cmd CMD_RAMWR m

/-- C `reset()`. -/
def reset (m : Machine) : Machine :=
  emit [Ev.pin_low Pin.DC, Ev.pin_high Pin.RST, Ev.delay_ms 500, Ev.pin_low Pin.RST,
    Ev.delay_ms 500, Ev.pin_high Pin.RST, Ev.delay_ms 500] m

/-- C `write_pixels(uint16_t count, uint16_t color)`: the `for` loop runs `count` times
and each turn transfers the same two bytes. -/
def write_pixels (count color : Int) (m : Machine) : Machine :=
  let count := u16 count
  let color := u16 color
  let data_transfer : List Int := [u8 (color >>> 8), u8 (Int.land color 0xFF)]
  emit ([Ev.pin_high Pin.DC, Ev.pin_low Pin.CS]
    ++ List.replicate count.toNat (Ev.spi_transfer data_transfer)
    ++ [Ev.pin_high Pin.CS]) m

/-! ## Rasterization primitives -/

/-- C `hline(self, x, y, w, color)`. -/
def hline (x y w color : Int) (m : Machine) : Machine :=
  let x := u8 x
  let y := u8 y
  let w := u8 w
  let color := u16 color
  if x ≥ m.dev.width ∨ y ≥ m.dev.height then m
  else
    let m := set_window x y (x + w - 1) y m
    write_pixels (x + w - 1) color m

/-- C `vline(self, x, y, h, color)`. -/
def vline (x y h color : Int) (m : Machine) : Machine :=
  let x := u8 x
  let y := u8 y
  let h := u8 h
  let color := u16 color
  if x ≥ m.dev.width ∨ y ≥ m.dev.height then m
  else
    let h := if (y + h - 1) ≥ m.dev.height then u8 (m.dev.height - y) else h
    let m := set_window x y x (y + h - 1) m
    write_pixels (y + h - 1) color m

/-- C `pixel0(self, x, y, color)`. -/
def pixel0 (x y color : Int) (m : Machine) : Machine :=
  let x := u8 x
  let y := u8 y
  let color := u16 color
  let m := set_window x y (x + 1) (y + 1) m
  write_pixels 1 color m

/-- C `rect_int(self, x, y, w, h, color)`. -/
def rect_int (x y w h color : Int) (m : Machine) : Machine :=
  let x := u8 x
  let y := u8 y
  let w := u8 w
  let h := u8 h
  let color := u16 color
  if x ≥ m.dev.width ∨ y ≥ m.dev.height then m
  else
    let w := if (x + w - 1) ≥ m.dev.width then u8 (m.dev.width - x) else w
    let h := if (y + h - 1) ≥ m.dev.height then u8 (m.dev.height - y) else h
    let m := set_window x y (x + w - 1) (y + h - 1) m
    write_pixels (w * h) color m

/-! ## Controller initialisation -/

/-- C `st7735_init(n_args, args)`. `orient` is `args[1]` when the caller supplies it; the
local `uint8_t orient` starts at 0 and is overwritten by `mp_obj_get_int(args[1])`. -/
def st7735_init (orient : Option Int) (m : Machine) : Machine :=
  let orient : Int :=
    match orient with
    | some a => u8 a
    | none => 0
  let m := reset m
  let m := write_cmd CMD_SWRESET m
  let m := emit [Ev.delay_ms 150] m
  let m := write_cmd CMD_SLPOUT m
  let m := emit [Ev.delay_ms 255] m
  let m := write_cmd CMD_FRMCTR1 m
  let m := write_data [0x01, 0x2C, 0x2D] m
  let m := write_cmd CMD_FRMCTR2 m
  let m := write_data [0x01, 0x2C, 0x2D, 0x01, 0x2C, 0x2D] m
  let m := emit [Ev.delay_ms 10] m
  let m := write_cmd CMD_INVCTR m
  let m := write_data [0x07] m
  let m := write_cmd CMD_PWCTR1 m
  let m := write_data [0xA2, 0x02, 0x84] m
  let m := write_cmd CMD_PWCTR2 m
  let m := write_data [0xC5] m
  let m := write_cmd CMD_PWCTR3 m
  let m := write_data [0x8A, 0x00] m
  let m := write_cmd CMD_PWCTR4 m
  let m := write_data [0x8A, 0x2A] m
  let m := write_cmd CMD_PWCTR5 m
  let m := write_data [0x8A, 0xEE] m
  let m := write_cmd CMD_VMCTR1 m
  let m := write_data [0x0E] m
  let m := write_cmd CMD_INVOFF m
  let m := write_cmd CMD_MADCTL m
  let m :=
    if orient = 0 then
      let m := write_data [0xA0] m
      { m with dev := { m.dev with width := 160, height := 128 } }
    else
      let m := write_data [0x00] m
      { m with dev := { m.dev with width := 128, height := 160 } }
  let m := write_cmd CMD_COLMOD m
  let m := write_data [0x05] m
  let m := write_cmd CMD_CASET m
  let m := write_data [0x00, 0x01, 0x00, 127] m
  let m := write_cmd CMD_RASET m
  let m := write_data [0x00, 0x01, 0x00, 159] m
  let m := write_cmd CMD_GMCTRP1 m
  let m := write_data [0x02, 0x1c, 0x07, 0x12, 0x37, 0x32, 0x29, 0x2d, 0x29, 0x25, 0x2b,
    0x39, 0x00, 0x01, 0x03, 0x10] m
  let m := write_cmd CMD_GMCTRN1 m
  let m := write_data [0x03, 0x1d, 0x07, 0x06, 0x2e, 0x2c, 0x29, 0x2d, 0x2e, 0x2e, 0x37,
    0x3f, 0x00, 0x00, 0x02, 0x10] m
  let m := write_cmd CMD_NORON m
  let m := emit [Ev.delay_ms 10] m
  let m := write_cmd CMD_DISPON m
  emit [Ev.delay_ms 100] m

/-! ## Public drawing methods -/

/-- C `pixel(n_args, args)`: `args[1..3]` are `x`, `y`, `color`. -/
def pixel (x y color : Int) (m : Machine) : Machine :=
  let x_int8 := u8 x
  let y_int8 := u8 y
  let color_int16 := u16 color
  pixel0 x_int8 y_int8 color_int16 m

/-- C `rgbcolor(n_args, args)`: `args[1..3]` are `red`, `green`, `blue`, each stored in a
`uint8_t`; the bit operations act on non-negative values and are done in `Nat`. -/
def rgbcolor (r g b : Int) : Int :=
  let red : Nat := (u8 r).toNat
  let green : Nat := (u8 g).toNat
  let blue : Nat := (u8 b).toNat
  ((((red &&& 0xF8) <<< 8) ||| ((green &&& 0xFC) <<< 3) ||| (blue >>> 3) : Nat) : Int)

/-- C `rect(n_args, args)`: `args[1..5]` are `x`, `y`, `w`, `h`, `color`. -/
def rect (x y w h color : Int) (m : Machine) : Machine :=
  let x := u8 x
  let y := u8 y
  let w := u8 w
  let h := u8 h
  let color := u16 color
  rect_int x y w h color m

/-- The `while(1)` loop of C `line`: one turn per unit of `fuel`; `none` when the fuel
runs out before the `break`. `x0`, `y0` are the `uint8_t` loop variables. -/
def line_walk : Nat → Int → Int → Int → Int → Int → Int → Int → Int → Int → Int →
    Machine → Option Machine
  | 0, _, _, _, _, _, _, _, _, _, _, _ => none
  | fuel + 1, x0, y0, x1, y1, color, dx, inx, dy, iny, err, m =>
    let m := pixel0 x0 y0 color m
    if x0 = x1 ∧ y0 = y1 then some m
    else
      let e2 := err
      let err1 := if e2 > -dx then err - dy else err
      let x0 := if e2 > -dx then u8 (x0 + inx) else x0
      let err2 := if e2 < dy then err1 + dx else err1
      let y0 := if e2 < dy then u8 (y0 + iny) else y0
      line_walk fuel x0 y0 x1 y1 color dx inx dy iny err2 m

/-- C `line(n_args, args)`: `args[1..5]` are `x0`, `y0`, `x1`, `y1`, `color`. The result
is `none` only when the Bresenham loop does not reach its `break` within `fuel` turns. -/
def line (fuel : Nat) (x0 y0 x1 y1 color : Int) (m : Machine) : Option Machine :=
  let x0 := u8 x0
  let y0 := u8 y0
  let x1 := u8 x1
  let y1 := u8 y1
  let color := u16 color
  if x0 = x1 then
    let start := if y1 < y0 then x1 else x0
    let end_ := if y1 < y0 then y1 else y0
    some (vline start end_ (|y1 - y0| + 1) color m)
  else if y0 = y1 then
    let start := if x1 < x0 then x1 else x0
    let end_ := if x1 < x0 then y1 else y0
    some (hline start end_ (|x1 - x0| + 1) color m)
  else
    let dx := |x1 - x0|
    let inx : Int := if x0 < x1 then 1 else -1
    let dy := |y1 - y0|
    let iny : Int := if y0 < y1 then 1 else -1
    let err := Int.tdiv (if dx > dy then dx else -dy) 2
    line_walk fuel x0 y0 x1 y1 color dx inx dy iny err m

/-- C `clear(self, color)`. -/
def clear (color : Int) (m : Machine) : Machine :=
  let color16b := u16 color
  rect_int 0 0 m.dev.width m.dev.height color16b m

/-- The object built by `tftdisp_class_make_new`: `width` and `height` are not assigned
there, so they are parameters. Nothing has been sent yet. -/
def make_new (width height : Int) : Machine :=
  { dev := { power_on := true, inverted := false, backlight_on := true,
             margin_row := 0, margin_col := 0, width := width, height := height },
    bus := [] }


/-! ## Observers of the hardware log -/

/-- Controller-side reading of a bus log: the payloads of the data-mode transfers (DC
high) made while the last command-mode transfer (DC low) was the single byte `cmd`.
`dc` is the current level of the DC line, `sel` tells whether the last command was `cmd`. -/
def cmd_data (cmd : Int) : Bool → Bool → List Ev → List (List Int)
  | _, _, [] => []
  | _, sel, Ev.pin_low Pin.DC :: t => cmd_data cmd false sel t
  | _, sel, Ev.pin_high Pin.DC :: t => cmd_data cmd true sel t
  | dc, sel, Ev.spi_transfer d :: t =>
    if dc then (if sel then d :: cmd_data cmd dc sel t else cmd_data cmd dc sel t)
    else cmd_data cmd dc (decide (d = [cmd])) t
  | dc, sel, _ :: t => cmd_data cmd dc sel t

/-- The events a driver function emits when run on the device state of `m`. -/
def trace_of (f : Machine → Machine) (m : Machine) : List Ev :=
  (f { m with bus := [] }).bus

/-! ## Font renderer -/

def WIDTH : Int := 6
def HEIGHT : Int := 8
def START : Int := 32
def END : Int := 127

/-- The table `const uint8_t Font[]`, one source line (one glyph, six column bytes) per
line. -/
def Font : List Int := [
  0x00, 0x00, 0x00, 0x00, 0x00, 0x00,
  0x00, 0x00, 0x06, 0x5F, 0x06, 0x00,
  0x00, 0x07, 0x03, 0x00, 0x07, 0x03,
  0x00, 0x24, 0x7E, 0x24, 0x7E, 0x24,
  0x00, 0x24, 0x2B, 0x6A, 0x12, 0x00,
  0x00, 0x63, 0x13, 0x08, 0x64, 0x63,
  0x00, 0x36, 0x49, 0x56, 0x20, 0x50,
  0x00, 0x00, 0x07, 0x03, 0x00, 0x00,
  0x00, 0x00, 0x3E, 0x41, 0x00, 0x00,
  0x00, 0x00, 0x41, 0x3E, 0x00, 0x00,
  0x00, 0x08, 0x3E, 0x1C, 0x3E, 0x08,
  0x00, 0x08, 0x08, 0x3E, 0x08, 0x08,
  0x00, 0x00, 0xE0, 0x60, 0x00, 0x00,
  0x00, 0x08, 0x08, 0x08, 0x08, 0x08,
  0x00, 0x00, 0x60, 0x60, 0x00, 0x00,
  0x00, 0x20, 0x10, 0x08, 0x04, 0x02,
  0x00, 0x3E, 0x51, 0x49, 0x45, 0x3E,
  0x00, 0x00, 0x42, 0x7F, 0x40, 0x00,
  0x00, 0x62, 0x51, 0x49, 0x49, 0x46,
  0x00, 0x22, 0x49, 0x49, 0x49, 0x36,
  0x00, 0x18, 0x14, 0x12, 0x7F, 0x10,
  0x00, 0x2F, 0x49, 0x49, 0x49, 0x31,
  0x00, 0x3C, 0x4A, 0x49, 0x49, 0x30,
  0x00, 0x01, 0x71, 0x09, 0x05, 0x03,
  0x00, 0x36, 0x49, 0x49, 0x49, 0x36,
  0x00, 0x06, 0x49, 0x49, 0x29, 0x1E,
  0x00, 0x00, 0x6C, 0x6C, 0x00, 0x00,
  0x00, 0x00, 0xEC, 0x6C, 0x00, 0x00,
  0x00, 0x08, 0x14, 0x22, 0x41, 0x00,
  0x00, 0x24, 0x24, 0x24, 0x24, 0x24,
  0x00, 0x00, 0x41, 0x22, 0x14, 0x08,
  0x00, 0x02, 0x01, 0x59, 0x09, 0x06,
  0x00, 0x3E, 0x41, 0x5D, 0x55, 0x1E,
  0x00, 0x7E, 0x11, 0x11, 0x11, 0x7E,
  0x00, 0x7F, 0x49, 0x49, 0x49, 0x36,
  0x00, 0x3E, 0x41, 0x41, 0x41, 0x22,
  0x00, 0x7F, 0x41, 0x41, 0x41, 0x3E,
  0x00, 0x7F, 0x49, 0x49, 0x49, 0x41,
  0x00, 0x7F, 0x09, 0x09, 0x09, 0x01,
  0x00, 0x3E, 0x41, 0x49, 0x49, 0x7A,
  0x00, 0x7F, 0x08, 0x08, 0x08, 0x7F,
  0x00, 0x00, 0x41, 0x7F, 0x41, 0x00,
  0x00, 0x30, 0x40, 0x40, 0x40, 0x3F,
  0x00, 0x7F, 0x08, 0x14, 0x22, 0x41,
  0x00, 0x7F, 0x40, 0x40, 0x40, 0x40,
  0x00, 0x7F, 0x02, 0x04, 0x02, 0x7F,
  0x00, 0x7F, 0x02, 0x04, 0x08, 0x7F,
  0x00, 0x3E, 0x41, 0x41, 0x41, 0x3E,
  0x00, 0x7F, 0x09, 0x09, 0x09, 0x06,
  0x00, 0x3E, 0x41, 0x51, 0x21, 0x5E,
  0x00, 0x7F, 0x09, 0x09, 0x19, 0x66,
  0x00, 0x26, 0x49, 0x49, 0x49, 0x32,
  0x00, 0x01, 0x01, 0x7F, 0x01, 0x01,
  0x00, 0x3F, 0x40, 0x40, 0x40, 0x3F,
  0x00, 0x1F, 0x20, 0x40, 0x20, 0x1F,
  0x00, 0x3F, 0x40, 0x3C, 0x40, 0x3F,
  0x00, 0x63, 0x14, 0x08, 0x14, 0x63,
  0x00, 0x07, 0x08, 0x70, 0x08, 0x07,
  0x00, 0x71, 0x49, 0x45, 0x43, 0x00,
  0x00, 0x00, 0x7F, 0x41, 0x41, 0x00,
  0x00, 0x02, 0x04, 0x08, 0x10, 0x20,
  0x00, 0x00, 0x41, 0x41, 0x7F, 0x00,
  0x00, 0x04, 0x02, 0x01, 0x02, 0x04,
  0x80, 0x80, 0x80, 0x80, 0x80, 0x80,
  0x00, 0x00, 0x03, 0x07, 0x00, 0x00,
  0x00, 0x20, 0x54, 0x54, 0x54, 0x78,
  0x00, 0x7F, 0x44, 0x44, 0x44, 0x38,
  0x00, 0x38, 0x44, 0x44, 0x44, 0x28,
  0x00, 0x38, 0x44, 0x44, 0x44, 0x7F,
  0x00, 0x38, 0x54, 0x54, 0x54, 0x08,
  0x00, 0x08, 0x7E, 0x09, 0x09, 0x00,
  0x00, 0x18, 0xA4, 0xA4, 0xA4, 0x7C,
  0x00, 0x7F, 0x04, 0x04, 0x78, 0x00,
  0x00, 0x00, 0x00, 0x7D, 0x40, 0x00,
  0x00, 0x40, 0x80, 0x84, 0x7D, 0x00,
  0x00, 0x7F, 0x10, 0x28, 0x44, 0x00,
  0x00, 0x00, 0x00, 0x7F, 0x40, 0x00,
  0x00, 0x7C, 0x04, 0x18, 0x04, 0x78,
  0x00, 0x7C, 0x04, 0x04, 0x78, 0x00,
  0x00, 0x38, 0x44, 0x44, 0x44, 0x38,
  0x00, 0xFC, 0x44, 0x44, 0x44, 0x38,
  0x00, 0x38, 0x44, 0x44, 0x44, 0xFC,
  0x00, 0x44, 0x78, 0x44, 0x04, 0x08,
  0x00, 0x08, 0x54, 0x54, 0x54, 0x20,
  0x00, 0x04, 0x3E, 0x44, 0x24, 0x00,
  0x00, 0x3C, 0x40, 0x20, 0x7C, 0x00,
  0x00, 0x1C, 0x20, 0x40, 0x20, 0x1C,
  0x00, 0x3C, 0x60, 0x30, 0x60, 0x3C,
  0x00, 0x6C, 0x10, 0x10, 0x6C, 0x00,
  0x00, 0x9C, 0xA0, 0x60, 0x3C, 0x00,
  0x00, 0x64, 0x54, 0x54, 0x4C, 0x00,
  0x00, 0x08, 0x3E, 0x41, 0x41, 0x00,
  0x00, 0x00, 0x00, 0x77, 0x00, 0x00,
  0x00, 0x00, 0x41, 0x41, 0x3E, 0x08,
  0x00, 0x02, 0x01, 0x02, 0x01, 0x00,
  0x00, 0x3C, 0x26, 0x23, 0x26, 0x3C]

/-- Inner `for(i=0; i<HEIGHT; i++)` loop of the unscaled path of C `charfunc`, for one
glyph column: `n` is the number of turns left (the loop variable `i` is not used in the
body), `temp` the `char temp` being shifted (`char` is unsigned on the ARM target), `py`
the `uint8_t` row. -/
def char_column : Nat → Int → Int → Int → Int → Bool → Int → Machine → Machine
  | 0, _, _, _, _, _, _, m => m
  | n + 1, px, py, temp, color, flag, color_bcknd, m =>
    let m :=
      if Int.land temp 0x01 ≠ 0 then pixel0 px py color m
      else if flag then pixel0 px py color_bcknd m
      else m
    char_column n px (u8 (py + 1)) (u8 (temp >>> 1)) color flag color_bcknd m

/-- Outer `for(k=0; k<WIDTH; k++)` loop of the unscaled path of C `charfunc`: the argument
list holds the bytes `ch[k], ch[k+1], ...` still to be drawn, `px` is the `uint8_t`
column. -/
def char_unscaled : List Int → Int → Int → Int → Bool → Int → Machine → Machine
  | [], _, _, _, _, _, m => m
  | temp :: rest, px, y, color, flag, color_bcknd, m =>
    let m := char_column 8 px y temp color flag color_bcknd m
    char_unscaled rest (u8 (px + 1)) y color flag color_bcknd m

/-- Inner `for(i=0; i<HEIGHT; i++)` loop of the scaled path of C `charfunc`: `n` turns are
left; each turn tests `ch[c]&0x01`, advances `py` by `sizey` and executes `c>>=1` on the
outer loop variable `c`, whose final value is returned with the machine. -/
def char_scaled_column : Nat → List Int → Int → Int → Int → Int → Int → Int → Machine →
    Int × Machine
  | 0, _, c, _, _, _, _, _, m => (c, m)
  | n + 1, ch, c, px, py, sizex, sizey, color, m =>
    let m :=
      if Int.land (ch.getD c.toNat 0) 0x01 ≠ 0 then rect_int px py sizex sizey color m
      else m
    char_scaled_column n ch (u8 (c >>> 1)) px (u8 (py + sizey)) sizex sizey color m

/-- Outer `for(c=0; c<WIDTH; c++)` loop of the scaled path of C `charfunc`, one turn per
unit of `fuel`; `none` when the fuel runs out before `c<WIDTH` fails. -/
def char_scaled : Nat → List Int → Int → Int → Int → Int → Int → Int → Machine →
    Option Machine
  | 0, _, _, _, _, _, _, _, _ => none
  | fuel + 1, ch, c, px, y, sizex, sizey, color, m =>
    if c < WIDTH then
      let r := char_scaled_column 8 ch c px y sizex sizey color m
      char_scaled fuel ch (u8 (r.1 + 1)) (u8 (px + sizex)) y sizex sizey color r.2
    else some m

/-- C `charfunc(self, x, y, ch, color, sizex, sizey, flag, color_bcknd)`. The result is
`none` only when the scaled path does not leave its outer loop within `fuel` turns. -/
def charfunc (fuel : Nat) (x y ch color sizex sizey : Int) (flag : Bool) (color_bcknd : Int)
    (m : Machine) : Option Machine :=
  let x := u8 x
  let y := u8 y
  let ch := u8 ch
  let color := u16 color
  let sizex := u8 sizex
  let sizey := u8 sizey
  let color_bcknd := u16 color_bcknd
  let ci := u16 ch
  let sizex1 := if sizex = 0 ∧ sizey = 0 then 1 else sizex
  let sizey1 := if sizex = 0 ∧ sizey = 0 then 1 else sizey
  if START ≤ ci ∧ ci ≤ END then
    let ci := u16 ((ci - START) * WIDTH)
    let chb : List Int := (List.range 6).map fun i => Font.getD (ci + (i : Int)).toNat 0
    let px := x
    if sizex1 ≤ 1 ∧ sizey1 ≤ 1 then
      some (char_unscaled chb px y color flag color_bcknd m)
    else
      char_scaled fuel chb 0 px y sizex1 sizey1 color m
  else some m

/-- The `for(uint8_t i=0; i<str_len; i++)` loop of C `text`, one turn per unit of `fuel`:
`i`, `px`, `y` are the `uint8_t` loop variables, `x` the start column, `string` the
`str_len` bytes of the local array `string` that the loop may read (`str_len` is the
length of the list). -/
def text_loop : Nat → List Int → Int → Int → Int → Int → Int → Bool → Int → Machine →
    Option Machine
  | 0, _, _, _, _, _, _, _, _, _ => none
  | fuel + 1, string, i, x, px, y, color, flag, color_bcknd, m =>
    if i < (string.length : Int) then
      match charfunc fuel px y (string.getD i.toNat 0) color 1 1 flag color_bcknd m with
      | none => none
      | some m =>
        let width := u8 (WIDTH + 1)
        let px := u8 (px + width)
        if px + width > m.dev.width then
          text_loop fuel string (u8 (i + 1)) x x (u8 (y + (HEIGHT + 1))) color flag
            color_bcknd m
        else
          text_loop fuel string (u8 (i + 1)) x px y color flag color_bcknd m
    else some m

/-- The `flag` local of C `text`: `false` unless `n_args>5`, then `args[5]` is tested
against 0. `bg` holds `args[5]` and `args[6]` when the caller supplies them. -/
def text_flag (bg : Option (Int × Int)) : Bool :=
  match bg with
  | some a => decide (a.1 ≠ 0)
  | none => false

/-- The `color_bcknd` local of C `text`: 65535 unless `n_args>5`, then `args[6]`. -/
def text_color_bcknd (bg : Option (Int × Int)) : Int :=
  match bg with
  | some a => u16 a.2
  | none => 65535

/-- C `strcpy(string, (char *)str)` with destination `char string[str_len]`: the
`str_len` bytes of `string` after the call. `str` is the data of the string object, which
MicroPython keeps followed by a 0 byte, so `strcpy` copies the bytes of `str` before its
first 0 byte and then one 0. When `str` holds a 0 at index `k`, the bytes of `string` after
index `k` are never written: the array is not initialised and they keep what the stack
held there, `stack i` for byte `i`. -/
def strcpy (stack : Nat → Int) (str : List Int) : List Int :=
  let k := (str.takeWhile fun c => decide (u8 c ≠ 0)).length
  (List.range str.length).map fun (i : Nat) =>
    if i < k then u8 (str.getD i 0) else if i = k then 0 else u8 (stack i)

/-- Whether `strcpy(string, (char *)str)` writes outside `char string[str_len]`: when `str`
holds no 0 byte, the terminating 0 goes to `string[str_len]`, one byte past the array. -/
def strcpy_past_end (str : List Int) : Bool :=
  str.all fun c => decide (u8 c ≠ 0)

/-- The locals of C `text` that are set before the call of `strcpy` and read after it. -/
inductive text_local
  | x
  | y
  | str_len
  | n_args
  deriving DecidableEq, Repr

/-- C `text(n_args, args)`: `args[1..4]` are `x`, `y`, `string`, `color`; `bg` holds
`args[5]` and `args[6]` when the caller supplies them (`n_args>5`). `str` is the data of
`args[3]` (`str_len` is its length) and `stack` the previous contents of the storage of the
local array `string`, which `strcpy` fills from `str`; the loop reads `string`.

When `strcpy_past_end str` holds, the 0 that ends the copy is written to the byte that
follows `string` in memory. `next` names the local whose lowest-addressed byte that is,
`none` when the byte belongs to nothing that `text` reads afterwards. The byte becomes 0:
the `uint8_t` locals `x` and `y` become 0, the `size_t` locals `str_len` and `n_args` lose
their low byte (the target, `ports/stm32`, is little-endian; `n_args` is at most 7, so it
becomes 0 and the test `n_args>5` fails). A run in which the byte is part of a pointer
(`self`, `args`) or of the saved registers is outside the embedding.

The result is `none` only when the `for` loop does not end within `fuel` turns. -/
def text (fuel : Nat) (x y : Int) (str : List Int) (color : Int) (bg : Option (Int × Int))
    (stack : Nat → Int) (next : Option text_local) (m : Machine) : Option Machine :=
  let x := u8 x
  let y := u8 y
  let str_len : Int := str.length
  let string := strcpy stack str
  let x := if strcpy_past_end str = true ∧ next = some text_local.x then 0 else x
  let y := if strcpy_past_end str = true ∧ next = some text_local.y then 0 else y
  let str_len :=
    if strcpy_past_end str = true ∧ next = some text_local.str_len then str_len - str_len % 256
    else str_len
  let bg := if strcpy_past_end str = true ∧ next = some text_local.n_args then none else bg
  let color := u16 color
  let flag := text_flag bg
  let color_bcknd := text_color_bcknd bg
  let px := x
  text_loop fuel (string.take str_len.toNat) 0 x px y color flag color_bcknd m

/-! ## Device controls -/

/-- The MicroPython objects the device controls compare their argument with, by pointer:
`mp_const_none`, `mp_const_true`, `mp_const_false`, a small integer `mp_obj_new_int(i)`,
any other object, and the C null pointer `0` (never the value of a Python argument). -/
inductive mp_obj_t
  | mp_const_none
  | mp_const_true
  | mp_const_false
  | small_int (i : Int)
  | other (tag : Nat)
  | null
  deriving DecidableEq, Repr

/-- MicroPython `mp_obj_new_bool`. -/
def mp_obj_new_bool (b : Bool) : mp_obj_t :=
  if b then mp_obj_t.mp_const_true else mp_obj_t.mp_const_false

/-- C `power(self, state)`: the returned object and the machine afterwards. -/
def power (state : mp_obj_t) (m : Machine) : mp_obj_t × Machine :=
  if state = mp_obj_t.mp_const_none then (mp_obj_new_bool m.dev.power_on, m)
  else
    let m :=
      if state = mp_obj_t.mp_const_true then
        let m := write_cmd CMD_DISPON m
        { m with dev := { m.dev with power_on := true } }
      else m
    let m :=
      if state = mp_obj_t.mp_const_false then
        let m := write_cmd CMD_DISPOFF m
        { m with dev := { m.dev with power_on := false } }
      else m
    (mp_obj_t.mp_const_none, m)

/-- C `inverted(self, state)`: the query test is `state==0`, a comparison with the null
pointer. -/
def inverted (state : mp_obj_t) (m : Machine) : mp_obj_t × Machine :=
  if state = mp_obj_t.null then (mp_obj_new_bool m.dev.inverted, m)
  else if state = mp_obj_t.mp_const_true ∨ state = mp_obj_t.small_int 1 then
    let m := write_cmd CMD_INVON m
    (mp_obj_t.mp_const_none, { m with dev := { m.dev with inverted := true } })
  else
    let m := write_cmd CMD_INVOFF m
    (mp_obj_t.mp_const_none, { m with dev := { m.dev with inverted := false } })

/-- C `backlight(self, state)`. -/
def backlight (state : mp_obj_t) (m : Machine) : mp_obj_t × Machine :=
  if state = mp_obj_t.mp_const_none then (mp_obj_new_bool m.dev.backlight_on, m)
  else if state = mp_obj_t.small_int 1 ∨ state = mp_obj_t.mp_const_true then
    let m := emit [Ev.pin_high Pin.BL] m
    (mp_obj_t.mp_const_none, { m with dev := { m.dev with backlight_on := true } })
  else
    let m := emit [Ev.pin_low Pin.BL] m
    (mp_obj_t.mp_const_none, { m with dev := { m.dev with backlight_on := false } })

/-! ## Plot sequences -/

/-- Successive single-pixel plots: `pixel0` on each `(x, y, colour)` of the list, first
element first. -/
def plot_all : List (Int × Int × Int) → Machine → Machine
  | [], m => m
  | p :: ps, m => plot_all ps (pixel0 p.1 p.2.1 p.2.2 m)

/-- The six column bytes of the glyph of character code `ch`: table entries
`(ch-32)*6 .. (ch-32)*6+5`. -/
def glyph_columns (ch : Int) : List Int :=
  (List.range 6).map fun (j : Nat) => Font.getD ((ch - 32) * 6 + (j : Int)).toNat 0

/-- Bit `i` of byte `b` is set. -/
def bit_set (b : Int) (i : Nat) : Bool := b.toNat.testBit i

/-- What the glyph description asks of one column byte `b` drawn in device column `px`
from row `py`: rows `i = 0..n-1` top to bottom, a set bit plotted in `color`, a clear bit
in `bg` when `flag` is set and skipped otherwise. -/
def column_plots (n : Nat) (px py b color : Int) (flag : Bool) (bg : Int) :
    List (Int × Int × Int) :=
  (List.range n).filterMap fun (i : Nat) =>
    if bit_set b i then some (px, py + (i : Int), color)
    else if flag then some (px, py + (i : Int), bg)
    else none

/-- What the glyph description asks of a glyph with column bytes `cols` drawn at
`(x, y)`: the cells `(x+k, y+i)`, `k = 0..5` outer and `i = 0..7` inner, each treated as
in `column_plots` according to bit `i` of column byte `k`. -/
def glyph_plots (cols : List Int) (x y color : Int) (flag : Bool) (bg : Int) :
    List (Int × Int × Int) :=
  (List.range 6).flatMap fun (k : Nat) =>
    column_plots 8 (x + (k : Int)) y (cols.getD k 0) color flag bg

/-- Number of set bits among bits 0..7 of the bytes of a list. -/
def set_bits (cols : List Int) : Nat :=
  (cols.map fun b => (List.range 8).countP fun i => bit_set b i).sum

/-- One SPI transfer as the panel controller reads it: the bytes of a transfer made with
the DC line low are a command, those of a transfer made with DC high are data. -/
inductive Frame
  | cmd (bytes : List Int)
  | data (bytes : List Int)
  deriving DecidableEq, Repr

/-- The SPI transfers of a hardware log, in order, each tagged by the level the DC line
had when it was made; `dc` is the level of the line before the log starts. -/
def bus_frames : Bool → List Ev → List Frame
  | _, [] => []
  | _, Ev.pin_low Pin.DC :: t => bus_frames false t
  | _, Ev.pin_high Pin.DC :: t => bus_frames true t
  | dc, Ev.spi_transfer d :: t => (if dc then Frame.data d else Frame.cmd d) :: bus_frames dc t
  | dc, _ :: t => bus_frames dc t

/-- The command transfers among a list of frames, in order. -/
def frame_cmds : List Frame → List (List Int)
  | [] => []
  | Frame.cmd d :: t => d :: frame_cmds t
  | Frame.data _ :: t => frame_cmds t

/-- Number of bytes sent over SPI in a hardware log. -/
def bytes_sent : List Ev → Nat
  | [] => 0
  | Ev.spi_transfer d :: t => d.length + bytes_sent t
  | _ :: t => bytes_sent t

/-! ## Frame conditions -/

/-- A result of a fuel-bounded function keeps the fields of the device of `m`: when it is
`some k`, the device of `k` is the device of `m`. -/
def keeps_dev (m : Machine) : Option Machine → Prop
  | none => True
  | some k => k.dev = m.dev

/-! ## Auxiliary lemmas -/

theorem u8_of_range {i : Int} (h0 : 0 ≤ i) (h1 : i < 256) : u8 i = i := by
  unfold u8; omega

theorem u8_u8 (i : Int) : u8 (u8 i) = u8 i := by
  unfold u8; omega

theorem u16_u16 (i : Int) : u16 (u16 i) = u16 i := by
  unfold u16; omega

theorem write_pixels_u16_color (n c : Int) (m : Machine) :
    write_pixels n (u16 c) m = write_pixels n c m := by
  simp only [write_pixels, u16_u16]

theorem vline_u16_color (x y h c : Int) (m : Machine) :
    vline x y h (u16 c) m = vline x y h c m := by
  simp only [vline, u16_u16]

theorem hline_u16_color (x y w c : Int) (m : Machine) :
    hline x y w (u16 c) m = hline x y w c m := by
  simp only [hline, u16_u16]

set_option maxRecDepth 100000 in
theorem and_F8 : ∀ r : Nat, r < 256 → r &&& 0xF8 = 8 * (r / 8) := by decide
set_option maxRecDepth 100000 in
theorem and_FC : ∀ r : Nat, r < 256 → r &&& 0xFC = 4 * (r / 4) := by decide

theorem pack_nat (r g b : Nat) (hr : r < 256) (hg : g < 256) (hb : b < 256) :
    ((r &&& 0xF8) <<< 8) ||| ((g &&& 0xFC) <<< 3) ||| (b >>> 3)
      = (r / 8) * 2048 + (g / 4) * 32 + b / 8 := by
  rw [and_F8 r hr, and_FC g hg, Nat.shiftLeft_eq, Nat.shiftLeft_eq, Nat.shiftRight_eq_div_pow]
  have h1 : 8 * (r / 8) * 2 ^ 8 = 2 ^ 11 * (r / 8) := by omega
  have h2 : 4 * (g / 4) * 2 ^ 3 = g / 4 * 32 := by omega
  rw [h1, h2, ← Nat.mul_add_lt_is_or (by omega : g / 4 * 32 < 2 ^ 11)]
  have h3 : 2 ^ 11 * (r / 8) + g / 4 * 32 = 2 ^ 5 * (r / 8 * 64 + g / 4) := by omega
  rw [h3, ← Nat.mul_add_lt_is_or (by omega : b / 2 ^ 3 < 2 ^ 5)]
  omega

theorem emit_bus (es : List Ev) (m : Machine) : (emit es m).bus = m.bus ++ es := rfl
theorem emit_dev (es : List Ev) (m : Machine) : (emit es m).dev = m.dev := rfl
theorem write_cmd_dev (c : Int) (m : Machine) : (write_cmd c m).dev = m.dev := rfl
theorem write_data_dev (d : List Int) (m : Machine) : (write_data d m).dev = m.dev := rfl
theorem reset_dev (m : Machine) : (reset m).dev = m.dev := rfl
theorem write_cmd_bus (c : Int) (m : Machine) : (write_cmd c m).bus = m.bus ++
    [Ev.pin_low Pin.DC, Ev.pin_low Pin.CS, Ev.spi_transfer [u8 c], Ev.pin_high Pin.CS] := rfl
theorem write_data_bus (d : List Int) (m : Machine) : (write_data d m).bus = m.bus ++
    [Ev.pin_high Pin.DC, Ev.pin_low Pin.CS, Ev.spi_transfer d, Ev.pin_high Pin.CS] := rfl
theorem reset_bus (m : Machine) : (reset m).bus = m.bus ++
    [Ev.pin_low Pin.DC, Ev.pin_high Pin.RST, Ev.delay_ms 500, Ev.pin_low Pin.RST,
    Ev.delay_ms 500, Ev.pin_high Pin.RST, Ev.delay_ms 500] := rfl

theorem st7735_init_zero (orient : Option Int) (m : Machine)
    (h : (match orient with | some a => u8 a | none => 0) = 0) :
    st7735_init orient m = st7735_init (some 0) m := by
  have h0 : u8 0 = 0 := by decide
  simp only [st7735_init, h, h0]

theorem st7735_init_nonzero (orient : Option Int) (m : Machine)
    (h : (match orient with | some a => u8 a | none => 0) ≠ 0) :
    st7735_init orient m = st7735_init (some 1) m := by
  have h1 : u8 1 ≠ 0 := by decide
  simp only [st7735_init, h, h1]

set_option maxRecDepth 100000 in
theorem init_zero_facts (m : Machine) :
    (st7735_init (some 0) m).bus = m.bus ++ trace_of (st7735_init (some 0)) m
    ∧ cmd_data CMD_MADCTL false false (trace_of (st7735_init (some 0)) m) = [[0xA0]] := by
  have h0 : u8 0 = 0 := by decide
  simp only [trace_of, st7735_init, h0, ↓reduceIte]
  simp only [emit_bus, write_cmd_bus, write_data_bus, reset_bus, List.append_assoc,
    List.cons_append, List.nil_append]
  exact ⟨trivial, by decide⟩

set_option maxRecDepth 100000 in
theorem init_one_facts (m : Machine) :
    (st7735_init (some 1) m).bus = m.bus ++ trace_of (st7735_init (some 1)) m
    ∧ cmd_data CMD_MADCTL false false (trace_of (st7735_init (some 1)) m) = [[0x00]] := by
  have h1 : u8 1 ≠ 0 := by decide
  simp only [trace_of, st7735_init, h1, ↓reduceIte]
  simp only [emit_bus, write_cmd_bus, write_data_bus, reset_bus, List.append_assoc,
    List.cons_append, List.nil_append]
  exact ⟨trivial, by decide⟩

theorem rect_int_clamped (x y w h color : Int) (m : Machine)
    (hx0 : 0 ≤ x) (hx : x < m.dev.width) (hy0 : 0 ≤ y) (hy : y < m.dev.height)
    (hW : m.dev.width ≤ 256) (hH : m.dev.height ≤ 256)
    (hw1 : 1 ≤ w) (hw : w < 256) (hh1 : 1 ≤ h) (hh : h < 256) :
    rect_int x y w h color m
      = write_pixels ((min (x + w) m.dev.width - x) * (min (y + h) m.dev.height - y)) color
          (set_window x y (min (x + w) m.dev.width - 1) (min (y + h) m.dev.height - 1) m) := by
  have ew : (if x + w - 1 ≥ m.dev.width then u8 (m.dev.width - x) else w)
      = min (x + w) m.dev.width - x := by
    simp only [u8]; split <;> omega
  have eh : (if y + h - 1 ≥ m.dev.height then u8 (m.dev.height - y) else h)
      = min (y + h) m.dev.height - y := by
    simp only [u8]; split <;> omega
  have nb : ¬ (x ≥ m.dev.width ∨ y ≥ m.dev.height) := by omega
  simp only [rect_int, u8_of_range hx0 (by omega : x < 256),
    u8_of_range hy0 (by omega : y < 256), u8_of_range (by omega : 0 ≤ w) hw,
    u8_of_range (by omega : 0 ≤ h) hh, nb, ↓reduceIte, ew, eh, write_pixels_u16_color]
  have e1 : x + (min (x + w) m.dev.width - x) - 1 = min (x + w) m.dev.width - 1 := by omega
  have e2 : y + (min (y + h) m.dev.height - y) - 1 = min (y + h) m.dev.height - 1 := by omega
  rw [e1, e2]

theorem line_vertical (fuel : Nat) (x0 y0 x1 y1 color : Int) (m : Machine)
    (hx0 : 0 ≤ x0 ∧ x0 < 256) (hy0 : 0 ≤ y0 ∧ y0 < 256)
    (hx1 : 0 ≤ x1 ∧ x1 < 256) (hy1 : 0 ≤ y1 ∧ y1 < 256) (hv : x0 = x1) :
    line fuel x0 y0 x1 y1 color m = some (vline x0 (min y0 y1) (|y1 - y0| + 1) color m) := by
  subst hv
  have es : (if y1 < y0 then y1 else y0) = min y0 y1 := by
    split <;> omega
  simp only [line, u8_of_range hx0.1 hx0.2, u8_of_range hy0.1 hy0.2, u8_of_range hy1.1 hy1.2,
    ↓reduceIte, ite_self, es, vline_u16_color]

theorem line_horizontal (fuel : Nat) (x0 y0 x1 y1 color : Int) (m : Machine)
    (hx0 : 0 ≤ x0 ∧ x0 < 256) (hy0 : 0 ≤ y0 ∧ y0 < 256)
    (hx1 : 0 ≤ x1 ∧ x1 < 256) (hy1 : 0 ≤ y1 ∧ y1 < 256) (hh : y0 = y1) (hne : x0 ≠ x1) :
    line fuel x0 y0 x1 y1 color m = some (hline (min x0 x1) y0 (|x1 - x0| + 1) color m) := by
  subst hh
  have es : (if x1 < x0 then x1 else x0) = min x0 x1 := by
    split <;> omega
  simp only [line, u8_of_range hx0.1 hx0.2, u8_of_range hy0.1 hy0.2, u8_of_range hx1.1 hx1.2,
    hne, ↓reduceIte, ite_self, es, hline_u16_color]

theorem pixel0_u16_color (x y c : Int) (m : Machine) :
    pixel0 x y (u16 c) m = pixel0 x y c m := by
  simp only [pixel0, u16_u16]

theorem plot_all_map_u16 (f g : Nat → Int) (c : Int) (l : List Nat) (m : Machine) :
    plot_all (l.map fun i => (f i, g i, u16 c)) m = plot_all (l.map fun i => (f i, g i, c)) m := by
  induction l generalizing m with
  | nil => rfl
  | cons a t ih => simp only [List.map_cons, plot_all, pixel0_u16_color, ih]

theorem line_walk_diagonal (sx sy n err color : Int) (hsx : sx = 1 ∨ sx = -1)
    (hsy : sy = 1 ∨ sy = -1) (he1 : -n < err) (he2 : err < n) :
    ∀ (k fuel : Nat) (x y : Int) (m : Machine), k + 1 ≤ fuel →
      0 ≤ x → x < 256 → 0 ≤ y → y < 256 →
      0 ≤ x + k * sx → x + k * sx < 256 → 0 ≤ y + k * sy → y + k * sy < 256 →
      line_walk fuel x y (x + k * sx) (y + k * sy) color n sx n sy err m
        = some (plot_all ((List.range (k + 1)).map fun (i : Nat) =>
            (x + (i : Int) * sx, y + (i : Int) * sy, color)) m) := by
  intro k
  induction k with
  | zero =>
    intro fuel x y m hf _ _ _ _ _ _ _ _
    obtain ⟨f, rfl⟩ : ∃ f, fuel = f + 1 := ⟨fuel - 1, by omega⟩
    simp [line_walk, plot_all]
  | succ k ih =>
    intro fuel x y m hf hx0 hx1 hy0 hy1 hxa hxb hya hyb
    obtain ⟨f, rfl⟩ : ∃ f, fuel = f + 1 := ⟨fuel - 1, by omega⟩
    have hne : ¬ (x = x + ((k + 1 : Nat) : Int) * sx ∧ y = y + ((k + 1 : Nat) : Int) * sy) := by
      rcases hsx with rfl | rfl <;> push_cast <;> omega
    have hxs : u8 (x + sx) = x + sx := by
      apply u8_of_range <;> rcases hsx with rfl | rfl <;> push_cast at hxa hxb <;> omega
    have hys : u8 (y + sy) = y + sy := by
      apply u8_of_range <;> rcases hsy with rfl | rfl <;> push_cast at hya hyb <;> omega
    have e1 : x + ((k + 1 : Nat) : Int) * sx = (x + sx) + (k : Int) * sx := by
      push_cast; ring
    have e2 : y + ((k + 1 : Nat) : Int) * sy = (y + sy) + (k : Int) * sy := by
      push_cast; ring
    have step : line_walk (f + 1) x y (x + ((k + 1 : Nat) : Int) * sx)
        (y + ((k + 1 : Nat) : Int) * sy) color n sx n sy err m
        = line_walk f (x + sx) (y + sy) (x + ((k + 1 : Nat) : Int) * sx)
            (y + ((k + 1 : Nat) : Int) * sy) color n sx n sy err (pixel0 x y color m) := by
      have g1 : err > -n := he1
      have g3 : err - n + n = err := by ring
      simp only [line_walk, hne, g1, he2, ↓reduceIte, hxs, hys, g3]
    rw [step, e1, e2, ih f (x + sx) (y + sy) (pixel0 x y color m) (by omega)
      (by rw [← hxs]; unfold u8; omega) (by rw [← hxs]; unfold u8; omega)
      (by rw [← hys]; unfold u8; omega) (by rw [← hys]; unfold u8; omega)
      (by rw [← e1]; exact hxa) (by rw [← e1]; exact hxb)
      (by rw [← e2]; exact hya) (by rw [← e2]; exact hyb)]
    rw [List.range_succ_eq_map (k + 1), List.map_cons, List.map_map]
    simp only [plot_all, Nat.cast_zero, zero_mul, add_zero]
    congr 2
    apply List.map_congr_left
    intro i _
    simp only [Function.comp, Nat.succ_eq_add_one, Nat.cast_add, Nat.cast_one]
    refine Prod.ext ?_ (Prod.ext ?_ rfl) <;> simp only <;> ring

theorem plot_all_append (l1 l2 : List (Int × Int × Int)) (m : Machine) :
    plot_all (l1 ++ l2) m = plot_all l2 (plot_all l1 m) := by
  induction l1 generalizing m with
  | nil => rfl
  | cons a t ih => exact ih (pixel0 a.1 a.2.1 a.2.2 m)

theorem pixel0_u8_x (x y c : Int) (m : Machine) : pixel0 (u8 x) y c m = pixel0 x y c m := by
  simp only [pixel0, u8_u8]

theorem pixel0_u8_y (x y c : Int) (m : Machine) : pixel0 x (u8 y) c m = pixel0 x y c m := by
  simp only [pixel0, u8_u8]

theorem char_column_u8_py (n : Nat) (px py temp color : Int) (flag : Bool) (bg : Int)
    (m : Machine) :
    char_column n px (u8 py) temp color flag bg m = char_column n px py temp color flag bg m := by
  cases n with
  | zero => rfl
  | succ n =>
    have e : u8 (u8 py + 1) = u8 (py + 1) := by unfold u8; omega
    simp only [char_column, pixel0_u8_y, e]

theorem char_column_u8_px (n : Nat) (px py temp color : Int) (flag : Bool) (bg : Int)
    (m : Machine) :
    char_column n (u8 px) py temp color flag bg m = char_column n px py temp color flag bg m := by
  induction n generalizing py temp m with
  | zero => rfl
  | succ n ih => simp only [char_column, pixel0_u8_x, ih]

set_option maxRecDepth 100000 in
theorem land_one_nat : ∀ t : Nat, t < 256 → Int.land (t : Int) 1 = ((t % 2 : Nat) : Int) := by
  decide

theorem land_one_bit (temp : Int) (h0 : 0 ≤ temp) (h1 : temp < 256) :
    (Int.land temp 0x01 ≠ 0) ↔ bit_set temp 0 = true := by
  obtain ⟨t, rfl⟩ := Int.eq_ofNat_of_zero_le h0
  rw [land_one_nat t (by omega)]
  simp only [bit_set, Int.toNat_ofNat, Nat.testBit_zero, decide_eq_true_eq]
  omega

set_option maxRecDepth 100000 in
theorem shift_one_nat :
    ∀ t : Nat, t < 256 → u8 ((t : Int) >>> (1 : Int)) = ((t / 2 : Nat) : Int) := by
  decide

theorem shift_one_byte (temp : Int) (h0 : 0 ≤ temp) (h1 : temp < 256) :
    u8 (temp >>> 1) = temp / 2 := by
  obtain ⟨t, rfl⟩ := Int.eq_ofNat_of_zero_le h0
  rw [shift_one_nat t (by omega)]
  omega

theorem bit_set_succ (b : Int) (i : Nat) : bit_set b (i + 1) = bit_set (b / 2) i := by
  have e : (b / 2).toNat = b.toNat / 2 := by omega
  simp only [bit_set, e, Nat.testBit_succ]

theorem column_plots_succ (n : Nat) (px py b color : Int) (flag : Bool) (bg : Int) :
    column_plots (n + 1) px py b color flag bg
      = (if bit_set b 0 then [(px, py, color)] else if flag then [(px, py, bg)] else [])
        ++ column_plots n px (py + 1) (b / 2) color flag bg := by
  simp only [column_plots]
  rw [List.range_succ_eq_map, List.filterMap_cons, List.filterMap_map]
  have e : ((fun (i : Nat) => if bit_set b i = true then some (px, py + (i : Int), color)
        else if flag = true then some (px, py + (i : Int), bg) else none) ∘ Nat.succ)
      = fun (i : Nat) => if bit_set (b / 2) i = true then some (px, py + 1 + (i : Int), color)
        else if flag = true then some (px, py + 1 + (i : Int), bg) else none := by
    funext i
    have e1 : py + ((i + 1 : Nat) : Int) = py + 1 + (i : Int) := by push_cast; ring
    simp only [Function.comp, Nat.succ_eq_add_one, bit_set_succ, e1]
  rw [e]
  by_cases h0 : bit_set b 0 = true
  · simp [h0]
  · by_cases hf : flag = true
    · simp [h0, hf]
    · simp [h0, hf]

theorem char_column_spec (n : Nat) (px color : Int) (flag : Bool) (bg : Int) :
    ∀ (py temp : Int) (m : Machine), 0 ≤ temp → temp < 256 →
      char_column n px py temp color flag bg m
        = plot_all (column_plots n px py temp color flag bg) m := by
  induction n with
  | zero => intro py temp m _ _; simp [char_column, column_plots, plot_all]
  | succ n ih =>
    intro py temp m h0 h1
    rw [column_plots_succ, plot_all_append, ← ih (py + 1) (temp / 2) _ (by omega) (by omega)]
    simp only [char_column, shift_one_byte temp h0 h1, char_column_u8_py]
    congr 1
    by_cases hb : bit_set temp 0 = true
    · rw [if_pos ((land_one_bit temp h0 h1).mpr hb), if_pos hb]; rfl
    · have hl : ¬ (Int.land temp 0x01 ≠ 0) := fun h => hb ((land_one_bit temp h0 h1).mp h)
      rw [if_neg hl, if_neg hb]
      by_cases hf : flag = true
      · rw [if_pos hf, if_pos hf]; rfl
      · rw [if_neg hf, if_neg hf]; rfl

set_option maxRecDepth 100000 in
theorem Font_bytes : ∀ b ∈ Font, 0 ≤ b ∧ b < 256 := by decide

theorem Font_getD_byte (n : Nat) : 0 ≤ Font.getD n 0 ∧ Font.getD n 0 < 256 := by
  rw [List.getD_eq_getElem?_getD]
  by_cases h : n < Font.length
  · rw [List.getElem?_eq_getElem h]
    exact Font_bytes _ (List.getElem_mem h)
  · rw [List.getElem?_eq_none (by omega)]
    exact ⟨le_rfl, by norm_num⟩

theorem column_plots_length (n : Nat) (px py b color : Int) (flag : Bool) (bg : Int) :
    (column_plots n px py b color flag bg).length
      = if flag then n else (List.range n).countP fun i => bit_set b i := by
  have gen : ∀ l : List Nat,
      (l.filterMap fun (i : Nat) => if bit_set b i then some (px, py + (i : Int), color)
        else if flag then some (px, py + (i : Int), bg) else none).length
      = if flag then l.length else l.countP fun i => bit_set b i := by
    intro l
    induction l with
    | nil => simp
    | cons a t ih =>
      rw [List.filterMap_cons]
      by_cases hb : bit_set b a = true
      · by_cases hf : flag = true <;> simp [hb, hf] at ih ⊢ <;> exact ih
      · by_cases hf : flag = true <;> simp [hb, hf] at ih ⊢ <;> exact ih
  simpa [column_plots] using gen (List.range n)

theorem char_unscaled_u8_px (cols : List Int) (px y color : Int) (flag : Bool) (bg : Int)
    (m : Machine) :
    char_unscaled cols (u8 px) y color flag bg m = char_unscaled cols px y color flag bg m := by
  cases cols with
  | nil => rfl
  | cons b rest =>
    have e : u8 (u8 px + 1) = u8 (px + 1) := by unfold u8; omega
    simp only [char_unscaled, char_column_u8_px, e]

theorem char_unscaled_spec (y color : Int) (flag : Bool) (bg : Int) :
    ∀ (cols : List Int) (px : Int) (m : Machine), (∀ b ∈ cols, 0 ≤ b ∧ b < 256) →
      char_unscaled cols px y color flag bg m
        = plot_all ((List.range cols.length).flatMap fun (k : Nat) =>
            column_plots 8 (px + (k : Int)) y (cols.getD k 0) color flag bg) m := by
  intro cols
  induction cols with
  | nil => intro px m _; rfl
  | cons b rest ih =>
    intro px m hb
    have hb0 := hb b (List.mem_cons_self b rest)
    have hrest : ∀ c ∈ rest, 0 ≤ c ∧ c < 256 := fun c hc => hb c (List.mem_cons_of_mem b hc)
    simp only [char_unscaled, char_unscaled_u8_px, List.length_cons]
    rw [ih (px + 1) _ hrest, char_column_spec 8 px color flag bg y b m hb0.1 hb0.2,
      List.range_succ_eq_map, List.flatMap_cons, plot_all_append, List.flatMap_map]
    have e : ∀ k : Nat, px + ((k + 1 : Nat) : Int) = px + 1 + (k : Int) := by
      intro k; push_cast; ring
    simp only [Nat.cast_zero, add_zero, List.getD_cons_zero, Nat.succ_eq_add_one, e,
      List.getD_cons_succ]

theorem pixel0_dev (x y c : Int) (m : Machine) : (pixel0 x y c m).dev = m.dev := rfl

theorem char_column_dev (n : Nat) (px color : Int) (flag : Bool) (bg : Int) :
    ∀ (py temp : Int) (m : Machine), (char_column n px py temp color flag bg m).dev = m.dev := by
  induction n with
  | zero => intro py temp m; rfl
  | succ n ih =>
    intro py temp m
    simp only [char_column]
    rw [ih]
    split
    · rfl
    · split <;> rfl

theorem char_unscaled_dev (y color : Int) (flag : Bool) (bg : Int) :
    ∀ (cols : List Int) (px : Int) (m : Machine),
      (char_unscaled cols px y color flag bg m).dev = m.dev := by
  intro cols
  induction cols with
  | nil => intro px m; rfl
  | cons b rest ih =>
    intro px m
    simp only [char_unscaled]
    rw [ih, char_column_dev]

theorem charfunc_one_one (fuel : Nat) (x y ch color : Int) (flag : Bool) (bg : Int)
    (m : Machine) :
    ∃ m1, charfunc fuel x y ch color 1 1 flag bg m = some m1 ∧ m1.dev = m.dev := by
  have e1 : u8 1 = 1 := by decide
  by_cases h : START ≤ u16 (u8 ch) ∧ u16 (u8 ch) ≤ END
  · have s1 : (if (1 : Int) = 0 ∧ (1 : Int) = 0 then (1 : Int) else 1) ≤ 1 := by decide
    simp only [charfunc, e1, h, s1, and_self, ↓reduceIte]
    exact ⟨_, rfl, char_unscaled_dev _ _ _ _ _ _ _⟩
  · exact ⟨m, by simp only [charfunc, h, ↓reduceIte], rfl⟩

theorem text_loop_step (fuel : Nat) (string : List Int) (i x px y color : Int) (flag : Bool)
    (bg : Int) (m m1 : Machine) (hi : i < (string.length : Int))
    (hpx0 : 0 ≤ px) (hpx : px + 7 < 256)
    (h1 : charfunc fuel px y (string.getD i.toNat 0) color 1 1 flag bg m = some m1)
    (hd : m1.dev = m.dev) :
    text_loop (fuel + 1) string i x px y color flag bg m
      = if px + 14 ≤ m.dev.width
        then text_loop fuel string (u8 (i + 1)) x (px + 7) y color flag bg m1
        else text_loop fuel string (u8 (i + 1)) x x (u8 (y + 9)) color flag bg m1 := by
  have ew : u8 (WIDTH + 1) = 7 := by decide
  have eh : HEIGHT + 1 = 9 := by decide
  have ep : u8 (px + 7) = px + 7 := u8_of_range (by omega) hpx
  simp only [text_loop, hi, ↓reduceIte, h1, ew, eh, ep, hd]
  by_cases hw : px + 14 ≤ m.dev.width
  · have hn : ¬ (px + 7 + 7 > m.dev.width) := by omega
    rw [if_neg hn, if_pos hw]
  · have hn : px + 7 + 7 > m.dev.width := by omega
    rw [if_pos hn, if_neg hw]

theorem text_loop_long_string (string : List Int) (x color : Int) (flag : Bool) (bg : Int)
    (hlen : 256 ≤ string.length) :
    ∀ (fuel : Nat) (i px y : Int) (m : Machine), 0 ≤ i → i < 256 →
      text_loop fuel string i x px y color flag bg m = none := by
  intro fuel
  induction fuel with
  | zero => intro i px y m _ _; rfl
  | succ f ih =>
    intro i px y m hi0 hi1
    have hi : i < (string.length : Int) := by omega
    have h0 : 0 ≤ u8 (i + 1) := by unfold u8; omega
    have h1 : u8 (i + 1) < 256 := by unfold u8; omega
    simp only [text_loop, hi, ↓reduceIte]
    split
    · rfl
    · split
      · exact ih _ _ _ _ h0 h1
      · exact ih _ _ _ _ h0 h1

theorem text_loop_short_string (string : List Int) (x color : Int) (flag : Bool) (bg : Int)
    (hlen : string.length ≤ 255) :
    ∀ (k fuel : Nat) (i px y : Int) (m : Machine), 0 ≤ i → i + (k : Int) = string.length →
      k + 1 ≤ fuel → ∃ m1, text_loop fuel string i x px y color flag bg m = some m1 := by
  intro k
  induction k with
  | zero =>
    intro fuel i px y m _ hk hf
    obtain ⟨f, rfl⟩ : ∃ f, fuel = f + 1 := ⟨fuel - 1, by omega⟩
    have hi : ¬ (i < (string.length : Int)) := by push_cast at hk; omega
    exact ⟨m, by simp only [text_loop, hi, ↓reduceIte]⟩
  | succ k ih =>
    intro fuel i px y m hi0 hk hf
    obtain ⟨f, rfl⟩ : ∃ f, fuel = f + 1 := ⟨fuel - 1, by omega⟩
    have hi : i < (string.length : Int) := by push_cast at hk; omega
    have e : u8 (i + 1) = i + 1 := u8_of_range (by omega) (by omega)
    obtain ⟨m1, h1, _⟩ := charfunc_one_one f px y (string.getD i.toNat 0) color flag bg m
    simp only [text_loop, hi, ↓reduceIte, h1, e]
    split
    · exact ih f (i + 1) _ _ m1 (by omega) (by push_cast at hk ⊢; omega) (by omega)
    · exact ih f (i + 1) _ _ m1 (by omega) (by push_cast at hk ⊢; omega) (by omega)

theorem set_window_congr (a b c d a1 b1 c1 d1 : Int) (m : Machine)
    (ha : u8 a = u8 a1) (hb : u8 b = u8 b1) (hc : u8 c = u8 c1) (hd : u8 d = u8 d1) :
    set_window a b c d m = set_window a1 b1 c1 d1 m := by
  simp only [set_window, ha, hb, hc, hd]

theorem set_window_bus (x0 y0 x1 y1 : Int) (m : Machine) :
    (set_window x0 y0 x1 y1 m).bus = m.bus ++
      [Ev.pin_low Pin.DC, Ev.pin_low Pin.CS, Ev.spi_transfer [0x2B], Ev.pin_high Pin.CS,
       Ev.pin_high Pin.DC, Ev.pin_low Pin.CS,
       Ev.spi_transfer [0x00, (y0 + m.dev.margin_row) % 256, 0x00,
         (y1 + m.dev.margin_row) % 256],
       Ev.pin_high Pin.CS,
       Ev.pin_low Pin.DC, Ev.pin_low Pin.CS, Ev.spi_transfer [0x2A], Ev.pin_high Pin.CS,
       Ev.pin_high Pin.DC, Ev.pin_low Pin.CS,
       Ev.spi_transfer [0x00, (x0 + m.dev.margin_col) % 256, 0x00,
         (x1 + m.dev.margin_col) % 256],
       Ev.pin_high Pin.CS,
       Ev.pin_low Pin.DC, Ev.pin_low Pin.CS, Ev.spi_transfer [0x2C], Ev.pin_high Pin.CS] := by
  have e1 : u8 CMD_RASET = 0x2B := by decide
  have e2 : u8 CMD_CASET = 0x2A := by decide
  have e3 : u8 CMD_RAMWR = 0x2C := by decide
  have f : ∀ a b : Int, u8 (u8 a + b) = (a + b) % 256 := by
    intro a b; unfold u8; omega
  simp only [set_window, write_cmd_bus, write_data_bus, write_cmd_dev, write_data_dev, e1, e2,
    e3, f, List.append_assoc, List.cons_append, List.nil_append]

theorem set_window_dev (x0 y0 x1 y1 : Int) (m : Machine) :
    (set_window x0 y0 x1 y1 m).dev = m.dev := rfl

theorem write_pixels_dev (n c : Int) (m : Machine) : (write_pixels n c m).dev = m.dev := rfl

theorem color_bytes (color : Int) (h0 : 0 ≤ color) (h1 : color < 65536) :
    u8 (u16 color >>> 8) = color / 256 ∧ u8 (Int.land (u16 color) 0xFF) = color % 256 := by
  have e : u16 color = color := by unfold u16; omega
  rw [e]
  obtain ⟨c, rfl⟩ := Int.eq_ofNat_of_zero_le h0
  have s : ((c : Int) >>> (8 : Int)) = ((c >>> 8 : Nat) : Int) := Int.shiftRight_coe_nat c 8
  have l : Int.land (c : Int) 0xFF = ((c &&& 255 : Nat) : Int) := rfl
  have l2 : c &&& 255 = c % 256 := Nat.and_pow_two_sub_one_eq_mod c 8
  rw [s, l, l2, Nat.shiftRight_eq_div_pow]
  unfold u8
  constructor <;> omega

theorem bus_frames_samples (d : List Int) (n : Nat) (t : List Ev) :
    bus_frames true (List.replicate n (Ev.spi_transfer d) ++ t)
      = List.replicate n (Frame.data d) ++ bus_frames true t := by
  induction n with
  | zero => rfl
  | succ n ih =>
    simp only [List.replicate_succ, List.cons_append, bus_frames, List.append_eq, ih,
      ↓reduceIte]

theorem bytes_sent_samples (d : List Int) (n : Nat) (t : List Ev) :
    bytes_sent (List.replicate n (Ev.spi_transfer d) ++ t) = n * d.length + bytes_sent t := by
  induction n with
  | zero => simp
  | succ n ih =>
    simp only [List.replicate_succ, List.cons_append, bytes_sent, List.append_eq, ih]
    ring

theorem hline_dev (x y w c : Int) (m : Machine) : (hline x y w c m).dev = m.dev := by
  simp only [hline]
  split <;> rfl

theorem vline_dev (x y h c : Int) (m : Machine) : (vline x y h c m).dev = m.dev := by
  simp only [vline]
  split <;> rfl

theorem rect_int_dev (x y w h c : Int) (m : Machine) : (rect_int x y w h c m).dev = m.dev := by
  simp only [rect_int]
  split <;> rfl

theorem line_walk_dev (x1 y1 color dx inx dy iny : Int) :
    ∀ (fuel : Nat) (x0 y0 err : Int) (m : Machine),
      keeps_dev m (line_walk fuel x0 y0 x1 y1 color dx inx dy iny err m) := by
  intro fuel
  induction fuel with
  | zero => intro x0 y0 err m; trivial
  | succ f ih =>
    intro x0 y0 err m
    simp only [line_walk]
    split
    · exact pixel0_dev x0 y0 color m
    · have h := ih (if err > -dx then u8 (x0 + inx) else x0)
        (if err < dy then u8 (y0 + iny) else y0)
        (if err < dy then (if err > -dx then err - dy else err) + dx
          else (if err > -dx then err - dy else err)) (pixel0 x0 y0 color m)
      revert h
      generalize line_walk f _ _ x1 y1 color dx inx dy iny _ (pixel0 x0 y0 color m) = r
      cases r with
      | none => intro _; trivial
      | some k => intro h; exact h.trans (pixel0_dev x0 y0 color m)

theorem char_scaled_column_dev (ch : List Int) (px sizex sizey color : Int) :
    ∀ (n : Nat) (c py : Int) (m : Machine),
      (char_scaled_column n ch c px py sizex sizey color m).2.dev = m.dev := by
  intro n
  induction n with
  | zero => intro c py m; rfl
  | succ n ih =>
    intro c py m
    simp only [char_scaled_column]
    rw [ih]
    split
    · exact rect_int_dev _ _ _ _ _ _
    · rfl

theorem char_scaled_dev (ch : List Int) (y sizex sizey color : Int) :
    ∀ (fuel : Nat) (c px : Int) (m : Machine),
      keeps_dev m (char_scaled fuel ch c px y sizex sizey color m) := by
  intro fuel
  induction fuel with
  | zero => intro c px m; trivial
  | succ f ih =>
    intro c px m
    simp only [char_scaled]
    split
    · have h := ih (u8 ((char_scaled_column 8 ch c px y sizex sizey color m).1 + 1))
        (u8 (px + sizex)) (char_scaled_column 8 ch c px y sizex sizey color m).2
      revert h
      generalize char_scaled f ch _ _ y sizex sizey color _ = r
      cases r with
      | none => intro _; trivial
      | some k => intro h; exact h.trans (char_scaled_column_dev _ _ _ _ _ _ _ _ _)
    · rfl

theorem charfunc_dev (fuel : Nat) (x y ch color sizex sizey : Int) (flag : Bool) (bg : Int)
    (m : Machine) : keeps_dev m (charfunc fuel x y ch color sizex sizey flag bg m) := by
  simp only [charfunc]
  by_cases h1 : START ≤ u16 (u8 ch) ∧ u16 (u8 ch) ≤ END
  · rw [if_pos h1]
    repeat' split
    all_goals first
      | exact char_unscaled_dev _ _ _ _ _ _ _
      | exact char_scaled_dev _ _ _ _ _ _ _ _ _
  · rw [if_neg h1]
    rfl

theorem text_loop_dev (string : List Int) (x color : Int) (flag : Bool) (bg : Int) :
    ∀ (fuel : Nat) (i px y : Int) (m : Machine),
      keeps_dev m (text_loop fuel string i x px y color flag bg m) := by
  intro fuel
  induction fuel with
  | zero => intro i px y m; trivial
  | succ f ih =>
    intro i px y m
    simp only [text_loop]
    split
    · have hc := charfunc_dev f px y (string.getD i.toNat 0) color 1 1 flag bg m
      revert hc
      cases charfunc f px y (string.getD i.toNat 0) color 1 1 flag bg m with
      | none => intro _; trivial
      | some m1 =>
        intro hc
        have key : ∀ (px1 y1 : Int), keeps_dev m
            (text_loop f string (u8 (i + 1)) x px1 y1 color flag bg m1) := by
          intro px1 y1
          have h := ih (u8 (i + 1)) px1 y1 m1
          revert h
          cases text_loop f string (u8 (i + 1)) x px1 y1 color flag bg m1 with
          | none => intro _; trivial
          | some k => intro h; exact h.trans hc
        simp only
        split
        · exact key _ _
        · exact key _ _
    · rfl

theorem line_walk_x_major (dx dy sx sy color E0 : Int) (hsx : sx = 1 ∨ sx = -1)
    (hsy : sy = 1 ∨ sy = -1) (hdy : 1 ≤ dy) (hdd : dy ≤ dx) (hE0 : 0 ≤ E0) (hE1 : E0 < dx) :
    ∀ (r fuel : Nat) (x y e q R Q : Int) (m : Machine),
      r + 1 ≤ fuel → R = (r : Int) * dy → Q = q * dx → 0 ≤ q → 0 ≤ e → e < dx →
      e + Q = E0 + R →
      0 ≤ x → x < 256 → 0 ≤ x + (r : Int) * sx → x + (r : Int) * sx < 256 →
      0 ≤ y → y < 256 → 0 ≤ y + q * sy → y + q * sy < 256 →
      ∃ pts : List (Int × Int),
        line_walk fuel x y (x + (r : Int) * sx) (y + q * sy) color dx sx dy sy e m
          = some (plot_all (pts.map fun p => (p.1, p.2, color)) m)
        ∧ pts.length = r + 1
        ∧ pts.head? = some (x, y)
        ∧ pts.getLast? = some (x + (r : Int) * sx, y + q * sy)
        ∧ List.Chain' (fun p p' : Int × Int =>
            p'.1 = p.1 + sx ∧ (p'.2 = p.2 ∨ p'.2 = p.2 + sy)) pts
        ∧ ∀ p ∈ pts, (min x (x + (r : Int) * sx) ≤ p.1 ∧ p.1 ≤ max x (x + (r : Int) * sx))
            ∧ (min y (y + q * sy) ≤ p.2 ∧ p.2 ≤ max y (y + q * sy)) := by
  intro r
  induction r with
  | zero =>
    intro fuel x y e q R Q m hf hR hQ hq he0 he1 hinv hx0 hx1 _ _ hy0 hy1 _ _
    obtain ⟨f, rfl⟩ : ∃ f, fuel = f + 1 := ⟨fuel - 1, by omega⟩
    have hR0 : R = 0 := by rw [hR]; simp
    have hq0 : q = 0 := by
      by_contra hne
      have h1 : 1 ≤ q := by omega
      have h2 : dx ≤ q * dx := le_mul_of_one_le_left (by omega) h1
      omega
    subst hq0
    refine ⟨[(x, y)], ?_, rfl, rfl, ?_, ?_, ?_⟩
    · simp [line_walk, plot_all]
    · simp
    · simp
    · intro p hp
      simp only [List.mem_singleton] at hp
      subst hp
      simp
  | succ r ih =>
    intro fuel x y e q R Q m hf hR hQ hq he0 he1 hinv hx0 hx1 hxa hxb hy0 hy1 hya hyb
    obtain ⟨f, rfl⟩ : ∃ f, fuel = f + 1 := ⟨fuel - 1, by omega⟩
    have hRr : R - dy = (r : Int) * dy := by rw [hR]; push_cast; ring
    have hRge : dy ≤ R := by
      have : 0 ≤ (r : Int) * dy := mul_nonneg (by omega) (by omega)
      omega
    have tx : x + ((r + 1 : Nat) : Int) * sx = (x + sx) + (r : Int) * sx := by
      push_cast; ring
    have hxs : u8 (x + sx) = x + sx := by
      apply u8_of_range <;> rcases hsx with rfl | rfl <;> push_cast at hxa hxb <;> omega
    have hxs0 : 0 ≤ x + sx := by rw [← hxs]; unfold u8; omega
    have hxs1 : x + sx < 256 := by rw [← hxs]; unfold u8; omega
    have hne : ¬ (x = x + ((r + 1 : Nat) : Int) * sx ∧ y = y + q * sy) := by
      rcases hsx with rfl | rfl <;> push_cast <;> omega
    have g1 : e > -dx := by omega
    by_cases hlt : e < dy
    · have hq1 : 1 ≤ q := by
        by_contra hne
        have hq0 : q = 0 := by omega
        rw [hq0, zero_mul] at hQ
        omega
      have hQr : Q - dx = (q - 1) * dx := by rw [hQ]; ring
      have ty : y + q * sy = (y + sy) + (q - 1) * sy := by ring
      have hys : u8 (y + sy) = y + sy := by
        apply u8_of_range <;> rcases hsy with rfl | rfl <;> omega
      have hys0 : 0 ≤ y + sy := by rw [← hys]; unfold u8; omega
      have hys1 : y + sy < 256 := by rw [← hys]; unfold u8; omega
      have step : line_walk (f + 1) x y (x + ((r + 1 : Nat) : Int) * sx) (y + q * sy) color
          dx sx dy sy e m
          = line_walk f (x + sx) (y + sy) (x + ((r + 1 : Nat) : Int) * sx) (y + q * sy) color
              dx sx dy sy (e - dy + dx) (pixel0 x y color m) := by
        simp only [line_walk, hne, g1, hlt, ↓reduceIte, hxs, hys]
      obtain ⟨pts, h1, h2, h3, h4, h5, h6⟩ := ih f (x + sx) (y + sy) (e - dy + dx) (q - 1)
        (R - dy) (Q - dx) (pixel0 x y color m) (by omega) hRr hQr (by omega) (by omega)
        (by omega) (by omega) hxs0 hxs1 (by rw [← tx]; exact hxa) (by rw [← tx]; exact hxb)
        hys0 hys1 (by rw [← ty]; exact hya) (by rw [← ty]; exact hyb)
      rw [← tx, ← ty] at h1 h4 h6
      obtain ⟨p0, t, rfl⟩ : ∃ p0 t, pts = p0 :: t := by
        cases pts with
        | nil => simp at h3
        | cons a t => exact ⟨a, t, rfl⟩
      have hp0 : p0 = (x + sx, y + sy) := by simpa using h3
      refine ⟨(x, y) :: p0 :: t, ?_, ?_, rfl, ?_, ?_, ?_⟩
      · rw [step, h1]; rfl
      · simp only [List.length_cons] at h2 ⊢; omega
      · rw [List.getLast?_cons_cons]; exact h4
      · rw [List.chain'_cons]
        refine ⟨?_, h5⟩
        subst hp0
        exact ⟨rfl, Or.inr rfl⟩
      · intro p hp
        rcases List.mem_cons.mp hp with rfl | hp
        · simp only
          rcases hsx with rfl | rfl <;> rcases hsy with rfl | rfl <;> push_cast <;> omega
        · have hb := h6 p hp
          rcases hsx with rfl | rfl <;> rcases hsy with rfl | rfl <;>
            push_cast at hb ⊢ <;> omega
    · have step : line_walk (f + 1) x y (x + ((r + 1 : Nat) : Int) * sx) (y + q * sy) color
          dx sx dy sy e m
          = line_walk f (x + sx) y (x + ((r + 1 : Nat) : Int) * sx) (y + q * sy) color
              dx sx dy sy (e - dy) (pixel0 x y color m) := by
        simp only [line_walk, hne, g1, hlt, ↓reduceIte, hxs]
      obtain ⟨pts, h1, h2, h3, h4, h5, h6⟩ := ih f (x + sx) y (e - dy) q
        (R - dy) Q (pixel0 x y color m) (by omega) hRr hQ hq (by omega)
        (by omega) (by omega) hxs0 hxs1 (by rw [← tx]; exact hxa) (by rw [← tx]; exact hxb)
        hy0 hy1 hya hyb
      rw [← tx] at h1 h4 h6
      obtain ⟨p0, t, rfl⟩ : ∃ p0 t, pts = p0 :: t := by
        cases pts with
        | nil => simp at h3
        | cons a t => exact ⟨a, t, rfl⟩
      have hp0 : p0 = (x + sx, y) := by simpa using h3
      refine ⟨(x, y) :: p0 :: t, ?_, ?_, rfl, ?_, ?_, ?_⟩
      · rw [step, h1]; rfl
      · simp only [List.length_cons] at h2 ⊢; omega
      · rw [List.getLast?_cons_cons]; exact h4
      · rw [List.chain'_cons]
        refine ⟨?_, h5⟩
        subst hp0
        exact ⟨rfl, Or.inl rfl⟩
      · intro p hp
        rcases List.mem_cons.mp hp with rfl | hp
        · simp only
          rcases hsx with rfl | rfl <;> rcases hsy with rfl | rfl <;> push_cast <;> omega
        · have hb := h6 p hp
          rcases hsx with rfl | rfl <;> rcases hsy with rfl | rfl <;>
            push_cast at hb ⊢ <;> omega

theorem line_walk_y_major (dx dy sx sy color E0 : Int) (hsx : sx = 1 ∨ sx = -1)
    (hsy : sy = 1 ∨ sy = -1) (hdx : 1 ≤ dx) (hdd : dx ≤ dy) (hE0 : -dy < E0) (hE1 : E0 ≤ 0) :
    ∀ (r fuel : Nat) (x y e q R Q : Int) (m : Machine),
      r + 1 ≤ fuel → R = (r : Int) * dx → Q = q * dy → 0 ≤ q → -dy < e → e ≤ 0 →
      e + R = E0 + Q →
      0 ≤ x → x < 256 → 0 ≤ x + q * sx → x + q * sx < 256 →
      0 ≤ y → y < 256 → 0 ≤ y + (r : Int) * sy → y + (r : Int) * sy < 256 →
      ∃ pts : List (Int × Int),
        line_walk fuel x y (x + q * sx) (y + (r : Int) * sy) color dx sx dy sy e m
          = some (plot_all (pts.map fun p => (p.1, p.2, color)) m)
        ∧ pts.length = r + 1
        ∧ pts.head? = some (x, y)
        ∧ pts.getLast? = some (x + q * sx, y + (r : Int) * sy)
        ∧ List.Chain' (fun p p' : Int × Int =>
            p'.2 = p.2 + sy ∧ (p'.1 = p.1 ∨ p'.1 = p.1 + sx)) pts
        ∧ ∀ p ∈ pts, (min x (x + q * sx) ≤ p.1 ∧ p.1 ≤ max x (x + q * sx))
            ∧ (min y (y + (r : Int) * sy) ≤ p.2 ∧ p.2 ≤ max y (y + (r : Int) * sy)) := by
  intro r
  induction r with
  | zero =>
    intro fuel x y e q R Q m hf hR hQ hq he0 he1 hinv hx0 hx1 _ _ hy0 hy1 _ _
    obtain ⟨f, rfl⟩ : ∃ f, fuel = f + 1 := ⟨fuel - 1, by omega⟩
    have hR0 : R = 0 := by rw [hR]; simp
    have hq0 : q = 0 := by
      by_contra hne
      have h1 : 1 ≤ q := by omega
      have h2 : dy ≤ q * dy := le_mul_of_one_le_left (by omega) h1
      omega
    subst hq0
    refine ⟨[(x, y)], ?_, rfl, rfl, ?_, ?_, ?_⟩
    · simp [line_walk, plot_all]
    · simp
    · simp
    · intro p hp
      simp only [List.mem_singleton] at hp
      subst hp
      simp
  | succ r ih =>
    intro fuel x y e q R Q m hf hR hQ hq he0 he1 hinv hx0 hx1 hxa hxb hy0 hy1 hya hyb
    obtain ⟨f, rfl⟩ : ∃ f, fuel = f + 1 := ⟨fuel - 1, by omega⟩
    have hRr : R - dx = (r : Int) * dx := by rw [hR]; push_cast; ring
    have hRge : dx ≤ R := by
      have : 0 ≤ (r : Int) * dx := mul_nonneg (by omega) (by omega)
      omega
    have ty : y + ((r + 1 : Nat) : Int) * sy = (y + sy) + (r : Int) * sy := by
      push_cast; ring
    have hys : u8 (y + sy) = y + sy := by
      apply u8_of_range <;> rcases hsy with rfl | rfl <;> push_cast at hya hyb <;> omega
    have hys0 : 0 ≤ y + sy := by rw [← hys]; unfold u8; omega
    have hys1 : y + sy < 256 := by rw [← hys]; unfold u8; omega
    have hne : ¬ (x = x + q * sx ∧ y = y + ((r + 1 : Nat) : Int) * sy) := by
      rcases hsy with rfl | rfl <;> push_cast <;> omega
    have g2 : e < dy := by omega
    by_cases hgt : e > -dx
    · have hq1 : 1 ≤ q := by
        by_contra hne
        have hq0 : q = 0 := by omega
        rw [hq0, zero_mul] at hQ
        omega
      have hQr : Q - dy = (q - 1) * dy := by rw [hQ]; ring
      have tx : x + q * sx = (x + sx) + (q - 1) * sx := by ring
      have hxs : u8 (x + sx) = x + sx := by
        apply u8_of_range <;> rcases hsx with rfl | rfl <;> omega
      have hxs0 : 0 ≤ x + sx := by rw [← hxs]; unfold u8; omega
      have hxs1 : x + sx < 256 := by rw [← hxs]; unfold u8; omega
      have step : line_walk (f + 1) x y (x + q * sx) (y + ((r + 1 : Nat) : Int) * sy) color
          dx sx dy sy e m
          = line_walk f (x + sx) (y + sy) (x + q * sx) (y + ((r + 1 : Nat) : Int) * sy) color
              dx sx dy sy (e - dy + dx) (pixel0 x y color m) := by
        simp only [line_walk, hne, g2, hgt, ↓reduceIte, hxs, hys]
      obtain ⟨pts, h1, h2, h3, h4, h5, h6⟩ := ih f (x + sx) (y + sy) (e - dy + dx) (q - 1)
        (R - dx) (Q - dy) (pixel0 x y color m) (by omega) hRr hQr (by omega) (by omega)
        (by omega) (by omega) hxs0 hxs1 (by rw [← tx]; exact hxa) (by rw [← tx]; exact hxb)
        hys0 hys1 (by rw [← ty]; exact hya) (by rw [← ty]; exact hyb)
      rw [← tx, ← ty] at h1 h4 h6
      obtain ⟨p0, t, rfl⟩ : ∃ p0 t, pts = p0 :: t := by
        cases pts with
        | nil => simp at h3
        | cons a t => exact ⟨a, t, rfl⟩
      have hp0 : p0 = (x + sx, y + sy) := by simpa using h3
      refine ⟨(x, y) :: p0 :: t, ?_, ?_, rfl, ?_, ?_, ?_⟩
      · rw [step, h1]; rfl
      · simp only [List.length_cons] at h2 ⊢; omega
      · rw [List.getLast?_cons_cons]; exact h4
      · rw [List.chain'_cons]
        refine ⟨?_, h5⟩
        subst hp0
        exact ⟨rfl, Or.inr rfl⟩
      · intro p hp
        rcases List.mem_cons.mp hp with rfl | hp
        · simp only
          rcases hsx with rfl | rfl <;> rcases hsy with rfl | rfl <;> push_cast <;> omega
        · have hb := h6 p hp
          rcases hsx with rfl | rfl <;> rcases hsy with rfl | rfl <;>
            push_cast at hb ⊢ <;> omega
    · have step : line_walk (f + 1) x y (x + q * sx) (y + ((r + 1 : Nat) : Int) * sy) color
          dx sx dy sy e m
          = line_walk f x (y + sy) (x + q * sx) (y + ((r + 1 : Nat) : Int) * sy) color
              dx sx dy sy (e + dx) (pixel0 x y color m) := by
        simp only [line_walk, hne, g2, hgt, ↓reduceIte, hys]
      obtain ⟨pts, h1, h2, h3, h4, h5, h6⟩ := ih f x (y + sy) (e + dx) q
        (R - dx) Q (pixel0 x y color m) (by omega) hRr hQ hq (by omega)
        (by omega) (by omega) hx0 hx1 hxa hxb
        hys0 hys1 (by rw [← ty]; exact hya) (by rw [← ty]; exact hyb)
      rw [← ty] at h1 h4 h6
      obtain ⟨p0, t, rfl⟩ : ∃ p0 t, pts = p0 :: t := by
        cases pts with
        | nil => simp at h3
        | cons a t => exact ⟨a, t, rfl⟩
      have hp0 : p0 = (x, y + sy) := by simpa using h3
      refine ⟨(x, y) :: p0 :: t, ?_, ?_, rfl, ?_, ?_, ?_⟩
      · rw [step, h1]; rfl
      · simp only [List.length_cons] at h2 ⊢; omega
      · rw [List.getLast?_cons_cons]; exact h4
      · rw [List.chain'_cons]
        refine ⟨?_, h5⟩
        subst hp0
        exact ⟨rfl, Or.inl rfl⟩
      · intro p hp
        rcases List.mem_cons.mp hp with rfl | hp
        · simp only
          rcases hsx with rfl | rfl <;> rcases hsy with rfl | rfl <;> push_cast <;> omega
        · have hb := h6 p hp
          rcases hsx with rfl | rfl <;> rcases hsy with rfl | rfl <;>
            push_cast at hb ⊢ <;> omega

theorem plot_all_pairs_u16 (pts : List (Int × Int)) (c : Int) (m : Machine) :
    plot_all (pts.map fun p => (p.1, p.2, u16 c)) m
      = plot_all (pts.map fun p => (p.1, p.2, c)) m := by
  induction pts generalizing m with
  | nil => rfl
  | cons a t ih => simp only [List.map_cons, plot_all, pixel0_u16_color, ih]

theorem line_bresenham (fuel : Nat) (x0 y0 x1 y1 color : Int) (m : Machine)
    (hx0 : 0 ≤ x0 ∧ x0 < 256) (hy0 : 0 ≤ y0 ∧ y0 < 256)
    (hx1 : 0 ≤ x1 ∧ x1 < 256) (hy1 : 0 ≤ y1 ∧ y1 < 256)
    (hnx : x0 ≠ x1) (hny : y0 ≠ y1)
    (hfuel : max |x1 - x0| |y1 - y0| + 1 ≤ (fuel : Int)) :
    ∃ pts : List (Int × Int),
      line fuel x0 y0 x1 y1 color m = some (plot_all (pts.map fun p => (p.1, p.2, color)) m)
      ∧ (pts.length : Int) = max |x1 - x0| |y1 - y0| + 1
      ∧ pts.head? = some (x0, y0)
      ∧ pts.getLast? = some (x1, y1)
      ∧ (|x1 - x0| > |y1 - y0| → List.Chain' (fun p p' : Int × Int =>
          p'.1 = p.1 + Int.sign (x1 - x0)
            ∧ (p'.2 = p.2 ∨ p'.2 = p.2 + Int.sign (y1 - y0))) pts)
      ∧ (|x1 - x0| ≤ |y1 - y0| → List.Chain' (fun p p' : Int × Int =>
          p'.2 = p.2 + Int.sign (y1 - y0)
            ∧ (p'.1 = p.1 ∨ p'.1 = p.1 + Int.sign (x1 - x0))) pts)
      ∧ ∀ p ∈ pts, (min x0 x1 ≤ p.1 ∧ p.1 ≤ max x0 x1) ∧ (min y0 y1 ≤ p.2 ∧ p.2 ≤ max y0 y1) := by
  have sxv : (if x0 < x1 then (1 : Int) else -1) = Int.sign (x1 - x0) := by
    split
    · rw [Int.sign_eq_one_of_pos (by omega)]
    · rw [Int.sign_eq_neg_one_of_neg (by omega)]
  have syv : (if y0 < y1 then (1 : Int) else -1) = Int.sign (y1 - y0) := by
    split
    · rw [Int.sign_eq_one_of_pos (by omega)]
    · rw [Int.sign_eq_neg_one_of_neg (by omega)]
  have hsx : Int.sign (x1 - x0) = 1 ∨ Int.sign (x1 - x0) = -1 := by
    rw [← sxv]; split <;> simp
  have hsy : Int.sign (y1 - y0) = 1 ∨ Int.sign (y1 - y0) = -1 := by
    rw [← syv]; split <;> simp
  have tx : x1 = x0 + |x1 - x0| * Int.sign (x1 - x0) := by
    rw [mul_comm, Int.sign_mul_abs]; ring
  have ty : y1 = y0 + |y1 - y0| * Int.sign (y1 - y0) := by
    rw [mul_comm, Int.sign_mul_abs]; ring
  have hdx : 1 ≤ |x1 - x0| := by
    rcases abs_cases (x1 - x0) with ⟨h, _⟩ | ⟨h, _⟩ <;> omega
  have hdy : 1 ≤ |y1 - y0| := by
    rcases abs_cases (y1 - y0) with ⟨h, _⟩ | ⟨h, _⟩ <;> omega
  generalize hDX : |x1 - x0| = dx at *
  generalize hDY : |y1 - y0| = dy at *
  generalize Int.sign (x1 - x0) = sx at *
  generalize Int.sign (y1 - y0) = sy at *
  by_cases hdom : dx > dy
  · obtain ⟨r, hr⟩ := Int.eq_ofNat_of_zero_le (by omega : 0 ≤ dx)
    have herr : Int.tdiv dx 2 = dx / 2 := Int.tdiv_eq_ediv (by omega) (by omega)
    have hw := line_walk_x_major dx dy sx sy (u16 color) (dx / 2) hsx hsy hdy (by omega)
      (by omega) (by omega) r fuel x0 y0 (dx / 2) dy ((r : Int) * dy) (dy * dx) m
      (by omega) rfl rfl (by omega) (by omega) (by omega)
      (by rw [← hr]; ring) hx0.1 hx0.2 (by rw [← hr, ← tx]; exact hx1.1)
      (by rw [← hr, ← tx]; exact hx1.2) hy0.1 hy0.2 (by rw [← ty]; exact hy1.1)
      (by rw [← ty]; exact hy1.2)
    rw [← hr, ← tx, ← ty] at hw
    obtain ⟨pts, h1, h2, h3, h4, h5, h6⟩ := hw
    refine ⟨pts, ?_, ?_, h3, h4, fun _ => h5, fun h => absurd h (by omega), h6⟩
    · simp only [line, u8_of_range hx0.1 hx0.2, u8_of_range hy0.1 hy0.2,
        u8_of_range hx1.1 hx1.2, u8_of_range hy1.1 hy1.2, hnx, hny, ↓reduceIte, hDX, hDY,
        hdom, sxv, syv, herr, h1]
      rw [plot_all_pairs_u16]
    · rw [h2]; push_cast; omega
  · obtain ⟨r, hr⟩ := Int.eq_ofNat_of_zero_le (by omega : 0 ≤ dy)
    have herr : Int.tdiv (-dy) 2 = -(dy / 2) := by
      rw [Int.neg_tdiv, Int.tdiv_eq_ediv (by omega) (by omega)]
    have hw := line_walk_y_major dx dy sx sy (u16 color) (-(dy / 2)) hsx hsy hdx (by omega)
      (by omega) (by omega) r fuel x0 y0 (-(dy / 2)) dx ((r : Int) * dx) (dx * dy) m
      (by omega) rfl rfl (by omega) (by omega) (by omega)
      (by rw [← hr]; ring) hx0.1 hx0.2 (by rw [← tx]; exact hx1.1)
      (by rw [← tx]; exact hx1.2) hy0.1 hy0.2 (by rw [← hr, ← ty]; exact hy1.1)
      (by rw [← hr, ← ty]; exact hy1.2)
    rw [← hr, ← tx, ← ty] at hw
    obtain ⟨pts, h1, h2, h3, h4, h5, h6⟩ := hw
    refine ⟨pts, ?_, ?_, h3, h4, fun h => absurd h hdom, fun _ => h5, h6⟩
    · simp only [line, u8_of_range hx0.1 hx0.2, u8_of_range hy0.1 hy0.2,
        u8_of_range hx1.1 hx1.2, u8_of_range hy1.1 hy1.2, hnx, hny, ↓reduceIte, hDX, hDY,
        hdom, sxv, syv, herr, h1]
      rw [plot_all_pairs_u16]
    · rw [h2]; push_cast; omega

theorem pixel0_bus (x y color : Int) (m : Machine) :
    (pixel0 x y color m).bus = (set_window x y (x + 1) (y + 1) m).bus ++
      [Ev.pin_high Pin.DC, Ev.pin_low Pin.CS,
       Ev.spi_transfer [u8 (u16 color >>> 8), u8 (Int.land (u16 color) 0xFF)],
       Ev.pin_high Pin.CS] := by
  have e1 : u8 (u8 x + 1) = u8 (x + 1) := by unfold u8; omega
  have e2 : u8 (u8 y + 1) = u8 (y + 1) := by unfold u8; omega
  have hw : set_window (u8 x) (u8 y) (u8 x + 1) (u8 y + 1) m
      = set_window x y (x + 1) (y + 1) m :=
    set_window_congr _ _ _ _ _ _ _ _ m (u8_u8 x) (u8_u8 y) e1 e2
  have h1 : (u16 1).toNat = 1 := by decide
  simp only [pixel0, hw, write_pixels, emit_bus, u16_u16, h1]
  rfl

theorem init_trace_class (orient : Option Int) (m : Machine) :
    trace_of (st7735_init orient) m
      = trace_of (st7735_init (some (if (orient.map u8).getD 0 = 0 then 0 else 1)))
          (make_new 160 128) := by
  have h0 : u8 0 = 0 := by decide
  have h1 : u8 1 ≠ 0 := by decide
  have ind0 : ∀ k : Machine, (st7735_init (some 0) k).bus
      = k.bus ++ trace_of (st7735_init (some 0)) (make_new 160 128) := by
    intro k
    simp only [trace_of, make_new, st7735_init, h0, ↓reduceIte]
    simp only [emit_bus, write_cmd_bus, write_data_bus, reset_bus, List.append_assoc,
      List.cons_append, List.nil_append]
  have ind1 : ∀ k : Machine, (st7735_init (some 1) k).bus
      = k.bus ++ trace_of (st7735_init (some 1)) (make_new 160 128) := by
    intro k
    simp only [trace_of, make_new, st7735_init, h1, ↓reduceIte]
    simp only [emit_bus, write_cmd_bus, write_data_bus, reset_bus, List.append_assoc,
      List.cons_append, List.nil_append]
  by_cases h : (orient.map u8).getD 0 = 0
  · have hm : (match orient with | some a => u8 a | none => 0) = 0 := by
      cases orient <;> exact h
    rw [if_pos h]
    show (st7735_init orient { m with bus := [] }).bus = _
    rw [st7735_init_zero orient _ hm, ind0]
    rfl
  · have hm : (match orient with | some a => u8 a | none => 0) ≠ 0 := by
      cases orient <;> exact h
    rw [if_neg h]
    show (st7735_init orient { m with bus := [] }).bus = _
    rw [st7735_init_nonzero orient _ hm, ind1]
    rfl

theorem strcpy_length (stack : Nat → Int) (str : List Int) :
    (strcpy stack str).length = str.length := by
  simp only [strcpy, List.length_map, List.length_range]

theorem text_returns (fuel : Nat) (x y : Int) (str : List Int) (color : Int)
    (bg : Option (Int × Int)) (stack : Nat → Int) (next : Option text_local) (m : Machine)
    (hlen : str.length ≤ 255) (hfuel : str.length + 1 ≤ fuel) :
    ∃ m1, text fuel x y str color bg stack next m = some m1 := by
  have hl : ∀ n : Nat, ((strcpy stack str).take n).length ≤ str.length := by
    intro n
    rw [List.length_take, strcpy_length]
    omega
  have key : ∀ (buf : List Int), buf.length ≤ str.length → ∀ (x1 px1 y1 c : Int) (f : Bool)
      (cb : Int), ∃ m1, text_loop fuel buf 0 x1 px1 y1 c f cb m = some m1 := by
    intro buf hb x1 px1 y1 c f cb
    exact text_loop_short_string buf x1 c f cb (le_trans hb hlen) buf.length fuel 0 px1 y1 m
      le_rfl (by simp) (by omega)
  simp only [text]
  exact key _ (hl _) _ _ _ _ _ _

/-! ## Claims -/

/-- C1: for r, g, b in 0..255 `rgbcolor` is the value of the C expression
`((r & 0xF8) << 8) | ((g & 0xFC) << 3) | (b >> 3)`, which is
`(r / 8) * 2048 + (g / 4) * 32 + b / 8`, a value below 65536 whose bits 15..11 are `r / 8`,
bits 10..5 are `g / 4` and bits 4..0 are `b / 8`; pure red, green, blue and white pack to
0xF800, 0x07E0, 0x001F and 0xFFFF. -/
theorem rgbcolor_rgb565 (r g b : Nat) (hr : r < 256) (hg : g < 256) (hb : b < 256) :
    rgbcolor r g b = ((((r &&& 0xF8) <<< 8) ||| ((g &&& 0xFC) <<< 3) ||| (b >>> 3) : Nat) : Int)
    ∧ rgbcolor r g b = ((r / 8 * 2048 + g / 4 * 32 + b / 8 : Nat) : Int)
    ∧ 0 ≤ rgbcolor r g b ∧ rgbcolor r g b < 65536
    ∧ rgbcolor r g b / 2048 = ((r / 8 : Nat) : Int)
    ∧ rgbcolor r g b / 32 % 64 = ((g / 4 : Nat) : Int)
    ∧ rgbcolor r g b % 32 = ((b / 8 : Nat) : Int)
    ∧ rgbcolor 255 0 0 = 0xF800 ∧ rgbcolor 0 255 0 = 0x07E0
    ∧ rgbcolor 0 0 255 = 0x001F ∧ rgbcolor 255 255 255 = 0xFFFF := by
  have er : (u8 (r : Int)).toNat = r := by unfold u8; omega
  have eg : (u8 (g : Int)).toNat = g := by unfold u8; omega
  have eb : (u8 (b : Int)).toNat = b := by unfold u8; omega
  have e1 : rgbcolor r g b
      = ((((r &&& 0xF8) <<< 8) ||| ((g &&& 0xFC) <<< 3) ||| (b >>> 3) : Nat) : Int) := by
    simp only [rgbcolor, er, eg, eb]
  have e2 : rgbcolor r g b = ((r / 8 * 2048 + g / 4 * 32 + b / 8 : Nat) : Int) := by
    rw [e1, pack_nat r g b hr hg hb]
  refine ⟨e1, e2, ?_, ?_, ?_, ?_, ?_, by decide, by decide, by decide, by decide⟩ <;>
    rw [e2] <;> omega

theorem rgbcolor_rgb565_witness :
    (200 : Nat) < 256 ∧ rgbcolor (200 : Nat) (100 : Nat) (50 : Nat) = 52006 :=
  ⟨by decide, by
    have h := (rgbcolor_rgb565 200 100 50 (by decide) (by decide) (by decide)).2.1
    rw [h]; decide⟩

/-- C2: `init(0)` leaves a 160x128 device and `init(1)` a 128x160 one; for every
orientation argument (also an absent one) the events `init` appends to the log contain
exactly one data transfer under the memory-access-control command, and its single byte is
0xA0 exactly when the resulting geometry is 160x128 and 0x00 exactly when it is 128x160,
one of which always holds. -/
theorem init_geometry (orient : Option Int) (m : Machine) :
    ((st7735_init (some 0) m).dev.width = 160 ∧ (st7735_init (some 0) m).dev.height = 128)
    ∧ ((st7735_init (some 1) m).dev.width = 128 ∧ (st7735_init (some 1) m).dev.height = 160)
    ∧ (st7735_init orient m).bus = m.bus ++ trace_of (st7735_init orient) m
    ∧ (∃ b : Int, cmd_data CMD_MADCTL false false (trace_of (st7735_init orient) m) = [[b]])
    ∧ (cmd_data CMD_MADCTL false false (trace_of (st7735_init orient) m) = [[0xA0]]
        ↔ ((st7735_init orient m).dev.width = 160 ∧ (st7735_init orient m).dev.height = 128))
    ∧ (cmd_data CMD_MADCTL false false (trace_of (st7735_init orient) m) = [[0x00]]
        ↔ ((st7735_init orient m).dev.width = 128 ∧ (st7735_init orient m).dev.height = 160))
    ∧ (((st7735_init orient m).dev.width = 160 ∧ (st7735_init orient m).dev.height = 128)
        ∨ ((st7735_init orient m).dev.width = 128 ∧ (st7735_init orient m).dev.height = 160)) := by
  refine ⟨⟨rfl, rfl⟩, ⟨rfl, rfl⟩, ?_⟩
  by_cases h : (match orient with | some a => u8 a | none => 0) = 0
  · have e : st7735_init orient = st7735_init (some 0) :=
      funext fun k => st7735_init_zero orient k h
    obtain ⟨hb, t⟩ := init_zero_facts m
    have w : (st7735_init (some 0) m).dev.width = 160 := rfl
    have hh : (st7735_init (some 0) m).dev.height = 128 := rfl
    rw [e]
    refine ⟨hb, ⟨_, t⟩, ?_, ?_, ?_⟩
    · simp [t, w, hh]
    · simp [t, w, hh]
    · simp [w, hh]
  · have e : st7735_init orient = st7735_init (some 1) :=
      funext fun k => st7735_init_nonzero orient k h
    obtain ⟨hb, t⟩ := init_one_facts m
    have w : (st7735_init (some 1) m).dev.width = 128 := rfl
    have hh : (st7735_init (some 1) m).dev.height = 160 := rfl
    rw [e]
    refine ⟨hb, ⟨_, t⟩, ?_, ?_, ?_⟩
    · simp [t, w, hh]
    · simp [t, w, hh]
    · simp [w, hh]

/-- C3: for an in-bounds start and 8-bit sizes `w, h >= 1`, `rect` programs exactly the
window `(x, y)-(min (x+w) width - 1, min (y+h) height - 1)`, which lies inside the device,
and then streams exactly as many samples as that window has cells, the clamped `w` times
the clamped `h`; so `rect(0,0,width+10,10,c)` behaves as `rect(0,0,width,10,c)` and streams
`width*10` samples. `rect_int` behaves the same on the same arguments. -/
theorem rect_clamps_window (x y w h color : Int) (m : Machine)
    (hW : m.dev.width < 256) (hH : m.dev.height < 256)
    (hx0 : 0 ≤ x) (hx : x < m.dev.width) (hy0 : 0 ≤ y) (hy : y < m.dev.height)
    (hw1 : 1 ≤ w) (hw : w < 256) (hh1 : 1 ≤ h) (hh : h < 256) :
    rect x y w h color m
        = write_pixels ((min (x + w) m.dev.width - x) * (min (y + h) m.dev.height - y)) color
            (set_window x y (min (x + w) m.dev.width - 1) (min (y + h) m.dev.height - 1) m)
    ∧ rect_int x y w h color m = rect x y w h color m
    ∧ (x ≤ min (x + w) m.dev.width - 1 ∧ min (x + w) m.dev.width - 1 < m.dev.width)
    ∧ (y ≤ min (y + h) m.dev.height - 1 ∧ min (y + h) m.dev.height - 1 < m.dev.height)
    ∧ (min (x + w) m.dev.width - x = min w (m.dev.width - x)
        ∧ min (y + h) m.dev.height - y = min h (m.dev.height - y))
    ∧ (0 ≤ (min (x + w) m.dev.width - x) * (min (y + h) m.dev.height - y)
        ∧ (min (x + w) m.dev.width - x) * (min (y + h) m.dev.height - y) < 65536)
    ∧ (m.dev.width + 10 < 256 → 10 ≤ m.dev.height →
        rect 0 0 (m.dev.width + 10) 10 color m = rect 0 0 m.dev.width 10 color m
        ∧ rect 0 0 (m.dev.width + 10) 10 color m
            = write_pixels (m.dev.width * 10) color
                (set_window 0 0 (m.dev.width - 1) 9 m)) := by
  have key := fun x y w h hx0 hx hy0 hy hw1 hw hh1 hh =>
    rect_int_clamped x y w h color m hx0 hx hy0 hy (le_of_lt hW) (le_of_lt hH) hw1 hw hh1 hh
  have rr : ∀ (x y w h : Int), 0 ≤ x → x < 256 → 0 ≤ y → y < 256 →
      0 ≤ w → w < 256 → 0 ≤ h → h < 256 →
      rect x y w h color m = rect_int x y w h color m := by
    intro x y w h hx0 hx hy0 hy hw1 hw hh1 hh
    simp only [rect, rect_int, u8_u8, u16_u16]
  refine ⟨?_, ?_, by omega, by omega, by omega, ?_, ?_⟩
  · rw [rr x y w h hx0 (by omega) hy0 (by omega) (by omega) hw (by omega) hh]
    exact key x y w h hx0 hx hy0 hy hw1 hw hh1 hh
  · exact (rr x y w h hx0 (by omega) hy0 (by omega) (by omega) hw (by omega) hh).symm
  · have a0 : 0 ≤ min (x + w) m.dev.width - x := by omega
    have a1 : min (x + w) m.dev.width - x ≤ 255 := by omega
    have b0 : 0 ≤ min (y + h) m.dev.height - y := by omega
    have b1 : min (y + h) m.dev.height - y ≤ 255 := by omega
    constructor
    · exact mul_nonneg a0 b0
    · have := mul_le_mul a1 b1 b0 (by norm_num : (0:Int) ≤ 255)
      omega
  · intro hw10 hh10
    have p1 := key 0 0 (m.dev.width + 10) 10 le_rfl (by omega) le_rfl (by omega)
      (by omega) hw10 (by norm_num) (by norm_num)
    have p2 := key 0 0 m.dev.width 10 le_rfl (by omega) le_rfl (by omega)
      (by omega) hW (by norm_num) (by norm_num)
    rw [rr 0 0 (m.dev.width + 10) 10 le_rfl (by norm_num) le_rfl (by norm_num) (by omega) hw10
        (by norm_num) (by norm_num),
      rr 0 0 m.dev.width 10 le_rfl (by norm_num) le_rfl (by norm_num) (by omega) hW
        (by norm_num) (by norm_num), p1, p2]
    have e1 : min (0 + (m.dev.width + 10)) m.dev.width = m.dev.width := by omega
    have e2 : min (0 + m.dev.width) m.dev.width = m.dev.width := by omega
    have e3 : min ((0:Int) + 10) m.dev.height = 10 := by omega
    simp only [e1, e2, e3, sub_zero]
    refine ⟨trivial, ?_⟩
    norm_num

theorem rect_clamps_window_witness :
    rect 150 120 100 100 0xF800 (st7735_init (some 0) (make_new 0 0))
      = write_pixels (10 * 8) 0xF800
          (set_window 150 120 159 127 (st7735_init (some 0) (make_new 0 0))) :=
  (rect_clamps_window 150 120 100 100 0xF800 (st7735_init (some 0) (make_new 0 0))
    (by decide) (by decide) (by decide) (by decide) (by decide) (by decide) (by decide)
    (by decide) (by decide) (by decide)).1

set_option maxRecDepth 100000 in
/-- C4 (the code at the failing input): on the 160x128 device left by `init(0)`, the
out-of-bounds call `pixel(200, 200, 0xF800)` is not a no-op: it programs the window
(200,200)-(201,201) and streams one sample, so the hardware log grows. -/
theorem pixel_out_of_bounds_still_draws :
    (200 : Int) ≥ (st7735_init (some 0) (make_new 0 0)).dev.width
    ∧ (200 : Int) ≥ (st7735_init (some 0) (make_new 0 0)).dev.height
    ∧ pixel 200 200 0xF800 (st7735_init (some 0) (make_new 0 0))
        = write_pixels 1 0xF800
            (set_window 200 200 201 201 (st7735_init (some 0) (make_new 0 0)))
    ∧ (pixel 200 200 0xF800 (st7735_init (some 0) (make_new 0 0))).bus.length
        = (st7735_init (some 0) (make_new 0 0)).bus.length + 24 := by
  refine ⟨by decide, by decide, ?_, ?_⟩
  · rfl
  · rfl

/-- C5: when the 8-bit start point has `x >= width` or `y >= height`, `hline`, `vline`,
`rect_int` and `rect` return the machine they were given, for every length, size and
colour: nothing is appended to the hardware log and no field of the device changes. -/
theorem out_of_bounds_start_is_noop (x y len w h color : Int) (m : Machine)
    (hx0 : 0 ≤ x) (hx : x < 256) (hy0 : 0 ≤ y) (hy : y < 256)
    (hout : x ≥ m.dev.width ∨ y ≥ m.dev.height) :
    hline x y len color m = m ∧ vline x y len color m = m
    ∧ rect_int x y w h color m = m ∧ rect x y w h color m = m := by
  simp only [hline, vline, rect, rect_int, u8_u8, u8_of_range hx0 hx, u8_of_range hy0 hy, hout,
    ↓reduceIte, and_self]

theorem out_of_bounds_start_is_noop_witness :
    hline 160 5 20 0xF800 (st7735_init (some 0) (make_new 0 0))
      = st7735_init (some 0) (make_new 0 0) :=
  (out_of_bounds_start_is_noop 160 5 20 3 4 0xF800 (st7735_init (some 0) (make_new 0 0))
    (by decide) (by decide) (by decide) (by decide) (Or.inl (by decide))).1

set_option maxRecDepth 100000 in
/-- C6 (the code at the failing inputs): on the 160x128 device left by `init(0)`,
`hline(10, 0, 5, c)` programs the 5-cell window (10,0)-(14,0) but streams 14 samples, and
`vline(0, 10, 5, c)` programs the 5-cell window (0,10)-(0,14) but streams 14 samples: the
count passed to `write_pixels` is the last coordinate, not the length. -/
theorem hline_vline_stream_last_coordinate :
    hline 10 0 5 0xF800 (st7735_init (some 0) (make_new 0 0))
        = write_pixels 14 0xF800 (set_window 10 0 14 0 (st7735_init (some 0) (make_new 0 0)))
    ∧ hline 10 0 5 0xF800 (st7735_init (some 0) (make_new 0 0))
        ≠ write_pixels 5 0xF800 (set_window 10 0 14 0 (st7735_init (some 0) (make_new 0 0)))
    ∧ vline 0 10 5 0xF800 (st7735_init (some 0) (make_new 0 0))
        = write_pixels 14 0xF800 (set_window 0 10 0 14 (st7735_init (some 0) (make_new 0 0)))
    ∧ vline 0 10 5 0xF800 (st7735_init (some 0) (make_new 0 0))
        ≠ write_pixels 5 0xF800
            (set_window 0 10 0 14 (st7735_init (some 0) (make_new 0 0))) := by
  refine ⟨rfl, ?_, rfl, ?_⟩
  · intro h
    exact absurd (congrArg (fun k => k.bus.length) h) (by decide)
  · intro h
    exact absurd (congrArg (fun k => k.bus.length) h) (by decide)

/-- C7: for an in-bounds start and an 8-bit `h >= 1`, the window `vline` programs is the
column `x` from row `y` to row `min (y+h) height - 1`; that last row is at least `y` and
below `height`, and when `y + h <= height` it is `y + h - 1`, the row of an unclamped `h`. -/
theorem vline_last_row_below_height (x y h color : Int) (m : Machine)
    (hW : m.dev.width < 256) (hH : m.dev.height < 256)
    (hx0 : 0 ≤ x) (hx : x < m.dev.width) (hy0 : 0 ≤ y) (hy : y < m.dev.height)
    (hh1 : 1 ≤ h) (hh : h < 256) :
    (∃ n : Int, vline x y h color m
        = write_pixels n color (set_window x y x (min (y + h) m.dev.height - 1) m))
    ∧ y ≤ min (y + h) m.dev.height - 1
    ∧ min (y + h) m.dev.height - 1 < m.dev.height
    ∧ (y + h ≤ m.dev.height →
        ∃ n : Int, vline x y h color m = write_pixels n color (set_window x y x (y + h - 1) m)) := by
  have eh : (if y + h - 1 ≥ m.dev.height then u8 (m.dev.height - y) else h)
      = min (y + h) m.dev.height - y := by
    simp only [u8]; split <;> omega
  have nb : ¬ (x ≥ m.dev.width ∨ y ≥ m.dev.height) := by omega
  have e2 : y + (min (y + h) m.dev.height - y) - 1 = min (y + h) m.dev.height - 1 := by omega
  have main : vline x y h color m
      = write_pixels (min (y + h) m.dev.height - 1) color
          (set_window x y x (min (y + h) m.dev.height - 1) m) := by
    simp only [vline, u8_of_range hx0 (by omega : x < 256),
      u8_of_range hy0 (by omega : y < 256), u8_of_range (by omega : 0 ≤ h) hh, nb, ↓reduceIte,
      eh, e2, write_pixels_u16_color]
  refine ⟨⟨_, main⟩, by omega, by omega, ?_⟩
  intro hle
  have e3 : min (y + h) m.dev.height - 1 = y + h - 1 := by omega
  rw [← e3]
  exact ⟨_, main⟩

theorem vline_last_row_below_height_witness :
    (120 : Int) ≤ min (120 + 100) (st7735_init (some 0) (make_new 0 0)).dev.height - 1
    ∧ min (120 + 100) (st7735_init (some 0) (make_new 0 0)).dev.height - 1
        < (st7735_init (some 0) (make_new 0 0)).dev.height :=
  have h := vline_last_row_below_height 3 120 100 0xF800 (st7735_init (some 0) (make_new 0 0))
    (by decide) (by decide) (by decide) (by decide) (by decide) (by decide) (by decide)
    (by decide)
  ⟨h.2.1, h.2.2.1⟩

/-- C8: after `init` with any orientation argument, `clear(c)` is `rect(0,0,width,height,c)`:
it programs the full-panel window (0,0)-(width-1,height-1) and streams `width*height`,
that is 20480, samples of `c`. -/
theorem clear_is_full_panel_rect (orient : Option Int) (color : Int) (m0 : Machine) :
    clear color (st7735_init orient m0)
        = rect 0 0 (st7735_init orient m0).dev.width (st7735_init orient m0).dev.height color
            (st7735_init orient m0)
    ∧ clear color (st7735_init orient m0)
        = write_pixels
            ((st7735_init orient m0).dev.width * (st7735_init orient m0).dev.height) color
            (set_window 0 0 ((st7735_init orient m0).dev.width - 1)
              ((st7735_init orient m0).dev.height - 1) (st7735_init orient m0))
    ∧ (st7735_init orient m0).dev.width * (st7735_init orient m0).dev.height = 20480 := by
  have geo : ((st7735_init orient m0).dev.width = 160 ∧ (st7735_init orient m0).dev.height = 128)
      ∨ ((st7735_init orient m0).dev.width = 128 ∧ (st7735_init orient m0).dev.height = 160) := by
    by_cases h : (match orient with | some a => u8 a | none => 0) = 0
    · rw [st7735_init_zero orient m0 h]; exact Or.inl ⟨rfl, rfl⟩
    · rw [st7735_init_nonzero orient m0 h]; exact Or.inr ⟨rfl, rfl⟩
  generalize st7735_init orient m0 = m at geo ⊢
  have e1 : clear color m = rect 0 0 m.dev.width m.dev.height color m := by
    simp only [clear, rect, rect_int, u8_u8, u16_u16]
  have e2 : clear color m = rect_int 0 0 m.dev.width m.dev.height color m := by
    simp only [clear, rect_int, u16_u16]
  refine ⟨e1, ?_, ?_⟩
  · rw [e2, rect_int_clamped 0 0 m.dev.width m.dev.height color m le_rfl (by omega) le_rfl
      (by omega) (by omega) (by omega) (by omega) (by omega) (by omega) (by omega)]
    have a : min (0 + m.dev.width) m.dev.width = m.dev.width := by omega
    have b : min (0 + m.dev.height) m.dev.height = m.dev.height := by omega
    rw [a, b, sub_zero, sub_zero]
  · rcases geo with ⟨w, h⟩ | ⟨w, h⟩ <;> rw [w, h] <;> rfl

/-- C9: for 8-bit endpoints, `line` with `x0 = x1` is `vline(x0, min(y0,y1), |y1-y0|+1, c)`
and `line` with `y0 = y1`, `x0 != x1` is `hline(min(x0,x1), y0, |x1-x0|+1, c)`, the length
being passed as the C call passes it (converted to `uint8_t` on entry); hence an
axis-aligned line and the line with its two endpoints swapped do the same. No Bresenham
turn is taken, so the result does not depend on the fuel. -/
theorem line_axis_aligned_delegates (fuel : Nat) (x0 y0 x1 y1 color : Int) (m : Machine)
    (hx0 : 0 ≤ x0 ∧ x0 < 256) (hy0 : 0 ≤ y0 ∧ y0 < 256)
    (hx1 : 0 ≤ x1 ∧ x1 < 256) (hy1 : 0 ≤ y1 ∧ y1 < 256) :
    (x0 = x1 →
      line fuel x0 y0 x1 y1 color m = some (vline x0 (min y0 y1) (|y1 - y0| + 1) color m))
    ∧ (y0 = y1 → x0 ≠ x1 →
      line fuel x0 y0 x1 y1 color m = some (hline (min x0 x1) y0 (|x1 - x0| + 1) color m))
    ∧ (x0 = x1 ∨ y0 = y1 →
      line fuel x0 y0 x1 y1 color m = line fuel x1 y1 x0 y0 color m) := by
  refine ⟨line_vertical fuel x0 y0 x1 y1 color m hx0 hy0 hx1 hy1,
    line_horizontal fuel x0 y0 x1 y1 color m hx0 hy0 hx1 hy1, ?_⟩
  intro h
  by_cases hv : x0 = x1
  · rw [line_vertical fuel x0 y0 x1 y1 color m hx0 hy0 hx1 hy1 hv,
      line_vertical fuel x1 y1 x0 y0 color m hx1 hy1 hx0 hy0 hv.symm,
      min_comm y1 y0, abs_sub_comm y0 y1, hv]
  · have hh : y0 = y1 := h.resolve_left hv
    rw [line_horizontal fuel x0 y0 x1 y1 color m hx0 hy0 hx1 hy1 hh hv,
      line_horizontal fuel x1 y1 x0 y0 color m hx1 hy1 hx0 hy0 hh.symm (Ne.symm hv),
      min_comm x1 x0, abs_sub_comm x0 x1, hh]

theorem line_axis_aligned_delegates_witness :
    line 0 7 30 7 10 0xF800 (st7735_init (some 0) (make_new 0 0))
      = some (vline 7 10 21 0xF800 (st7735_init (some 0) (make_new 0 0))) :=
  (line_axis_aligned_delegates 0 7 30 7 10 0xF800 (st7735_init (some 0) (make_new 0 0))
    (by decide) (by decide) (by decide) (by decide)).1 rfl

set_option maxRecDepth 100000 in
/-- C10 (the code at the failing input): on the 160x128 device left by `init(0)`, the
degenerate `line(5,5,5,5,c)` programs the single-cell window (5,5)-(5,5) but streams 5
samples of `c`, not 1. -/
theorem degenerate_line_streams_row_index :
    line 0 5 5 5 5 0xF800 (st7735_init (some 0) (make_new 0 0))
        = some (write_pixels 5 0xF800
            (set_window 5 5 5 5 (st7735_init (some 0) (make_new 0 0))))
    ∧ line 0 5 5 5 5 0xF800 (st7735_init (some 0) (make_new 0 0))
        ≠ some (write_pixels 1 0xF800
            (set_window 5 5 5 5 (st7735_init (some 0) (make_new 0 0)))) := by
  refine ⟨rfl, ?_⟩
  intro h
  exact absurd (congrArg (fun k => k.map fun j => j.bus.length) h) (by decide)

/-- C11: for 8-bit endpoints with `|x1-x0| = |y1-y0| = n >= 1` and enough fuel (`n+1` loop
turns), `line` returns, and what it does is exactly the `n+1` single-pixel plots of the
points `(x0 + i*sx, y0 + i*sy)`, `i = 0..n`, in that order, `sx` and `sy` being the signs
of `x1-x0` and `y1-y0`; `line(0,0,4,4,c)` plots (0,0),(1,1),(2,2),(3,3),(4,4) and nothing
else. -/
theorem line_diagonal_plots (fuel n : Nat) (x0 y0 x1 y1 color : Int) (m : Machine)
    (hx0 : 0 ≤ x0 ∧ x0 < 256) (hy0 : 0 ≤ y0 ∧ y0 < 256)
    (hx1 : 0 ≤ x1 ∧ x1 < 256) (hy1 : 0 ≤ y1 ∧ y1 < 256)
    (hn : 1 ≤ n) (hdx : |x1 - x0| = n) (hdy : |y1 - y0| = n) (hfuel : n + 1 ≤ fuel) :
    line fuel x0 y0 x1 y1 color m
        = some (plot_all ((List.range (n + 1)).map fun (i : Nat) =>
            (x0 + (i : Int) * Int.sign (x1 - x0), y0 + (i : Int) * Int.sign (y1 - y0), color)) m)
    ∧ line (fuel + 4) 0 0 4 4 color m
        = some (pixel0 4 4 color (pixel0 3 3 color (pixel0 2 2 color
            (pixel0 1 1 color (pixel0 0 0 color m))))) := by
  have general : ∀ (fuel n : Nat) (x0 y0 x1 y1 : Int), (0 ≤ x0 ∧ x0 < 256) →
      (0 ≤ y0 ∧ y0 < 256) → (0 ≤ x1 ∧ x1 < 256) → (0 ≤ y1 ∧ y1 < 256) → 1 ≤ n →
      |x1 - x0| = n → |y1 - y0| = n → n + 1 ≤ fuel →
      line fuel x0 y0 x1 y1 color m
        = some (plot_all ((List.range (n + 1)).map fun (i : Nat) =>
            (x0 + (i : Int) * Int.sign (x1 - x0), y0 + (i : Int) * Int.sign (y1 - y0), color))
            m) := by
    intro fuel n x0 y0 x1 y1 hx0 hy0 hx1 hy1 hn hdx hdy hfuel
    have hnx : x0 ≠ x1 := by
      intro h; rw [h, sub_self, abs_zero] at hdx; omega
    have hny : y0 ≠ y1 := by
      intro h; rw [h, sub_self, abs_zero] at hdy; omega
    have sxv : (if x0 < x1 then (1 : Int) else -1) = Int.sign (x1 - x0) := by
      split
      · rw [Int.sign_eq_one_of_pos (by omega)]
      · rw [Int.sign_eq_neg_one_of_neg (by omega)]
    have syv : (if y0 < y1 then (1 : Int) else -1) = Int.sign (y1 - y0) := by
      split
      · rw [Int.sign_eq_one_of_pos (by omega)]
      · rw [Int.sign_eq_neg_one_of_neg (by omega)]
    have hsx : Int.sign (x1 - x0) = 1 ∨ Int.sign (x1 - x0) = -1 := by
      rw [← sxv]; split <;> simp
    have hsy : Int.sign (y1 - y0) = 1 ∨ Int.sign (y1 - y0) = -1 := by
      rw [← syv]; split <;> simp
    have tx : x1 = x0 + (n : Int) * Int.sign (x1 - x0) := by
      rw [← hdx, mul_comm, Int.sign_mul_abs]; ring
    have ty : y1 = y0 + (n : Int) * Int.sign (y1 - y0) := by
      rw [← hdy, mul_comm, Int.sign_mul_abs]; ring
    have herr : Int.tdiv (-(n : Int)) 2 = -((n : Int) / 2) := by
      rw [Int.neg_tdiv, Int.tdiv_eq_ediv (by omega) (by omega)]
    have hw := line_walk_diagonal (Int.sign (x1 - x0)) (Int.sign (y1 - y0)) n
      (-((n : Int) / 2)) (u16 color) hsx hsy (by omega) (by omega) n fuel x0 y0 m hfuel
      hx0.1 hx0.2 hy0.1 hy0.2 (by rw [← tx]; exact hx1.1) (by rw [← tx]; exact hx1.2)
      (by rw [← ty]; exact hy1.1) (by rw [← ty]; exact hy1.2)
    rw [← tx, ← ty] at hw
    simp only [line, u8_of_range hx0.1 hx0.2, u8_of_range hy0.1 hy0.2,
      u8_of_range hx1.1 hx1.2, u8_of_range hy1.1 hy1.2, hnx, hny, ↓reduceIte, hdx, hdy,
      lt_irrefl, gt_iff_lt, sxv, syv, herr, hw]
    rw [plot_all_map_u16]
  refine ⟨general fuel n x0 y0 x1 y1 hx0 hy0 hx1 hy1 hn hdx hdy hfuel, ?_⟩
  have h := general (fuel + 4) 4 0 0 4 4 (by decide) (by decide) (by decide) (by decide)
    (by decide) (by decide) (by decide) (by omega)
  have s4 : Int.sign 4 = 1 := by decide
  rw [h]
  simp [plot_all, List.range_succ, s4]

theorem line_diagonal_plots_witness :
    line 5 3 9 7 5 0xF800 (make_new 160 128)
      = some (pixel0 7 5 0xF800 (pixel0 6 6 0xF800 (pixel0 5 7 0xF800 (pixel0 4 8 0xF800
          (pixel0 3 9 0xF800 (make_new 160 128)))))) := by
  have h := (line_diagonal_plots 5 4 3 9 7 5 0xF800 (make_new 160 128) (by decide) (by decide)
    (by decide) (by decide) (by decide) (by decide) (by decide) (by decide)).1
  have s4 : Int.sign 4 = 1 := by decide
  rw [h]
  simp [plot_all, List.range_succ, s4]

set_option maxRecDepth 100000 in
/-- C12 (counterexample): code 127 lies outside [32,126], yet `charfunc` draws for it: on
a fresh 160x128 device the unscaled call for code 127 at (0,0) leaves 17 single-pixel plots
(24 bus events each) in the hardware log. -/
theorem charfunc_draws_code_127 :
    ¬ ((32 : Int) ≤ 127 ∧ (127 : Int) ≤ 126)
    ∧ charfunc 0 0 0 127 0xFFFF 1 1 false 0 (make_new 160 128) ≠ some (make_new 160 128)
    ∧ (charfunc 0 0 0 127 0xFFFF 1 1 false 0 (make_new 160 128)).map (fun k => k.bus.length)
        = some (17 * 24) := by
  refine ⟨by decide, ?_, by decide⟩
  intro h
  exact absurd (congrArg (fun k => k.map fun j => j.bus.length) h) (by decide)

/-- C12 (amended): for every 8-bit character code outside the closed range [32,127], that
is below 32 or at least 128, `charfunc` returns the machine it was given, for every
position, colour, scale, background setting and fuel: nothing is appended to the hardware
log. -/
theorem charfunc_outside_table_is_noop (fuel : Nat) (x y ch color sizex sizey : Int)
    (flag : Bool) (color_bcknd : Int) (m : Machine)
    (hc0 : 0 ≤ ch) (hc1 : ch < 256) (hout : ch < 32 ∨ 127 < ch) :
    charfunc fuel x y ch color sizex sizey flag color_bcknd m = some m := by
  have e : u16 (u8 ch) = ch := by unfold u16 u8; omega
  have hn : ¬ (START ≤ ch ∧ ch ≤ END) := by unfold START END; omega
  simp only [charfunc, e, hn, ↓reduceIte]

theorem charfunc_outside_table_is_noop_witness :
    charfunc 0 3 4 128 0xFFFF 2 2 true 0 (make_new 160 128) = some (make_new 160 128) :=
  charfunc_outside_table_is_noop 0 3 4 128 0xFFFF 2 2 true 0 (make_new 160 128)
    (by decide) (by decide) (Or.inr (by decide))

/-- C13: for a character code of the table (32..127), a position with `x <= 250` and
`y <= 248`, scale (1,1) or unset (0,0) and 16-bit colours, `charfunc` returns (whatever the
fuel) and does exactly the single-pixel plots of `glyph_plots`: the cells `(x+k, y+i)`,
`k = 0..5` outer, `i = 0..7` inner, `color` where bit `i` of column byte `k` is set and,
where it is clear, `color_bcknd` if `flag` is set and nothing otherwise. That is 48 plots
with `flag` and as many plots as the glyph has set bits without it. -/
theorem charfunc_unscaled_plots (fuel : Nat) (x y ch color sizex sizey : Int) (flag : Bool)
    (color_bcknd : Int) (m : Machine)
    (hch : 32 ≤ ch ∧ ch ≤ 127) (hx : 0 ≤ x ∧ x ≤ 250) (hy : 0 ≤ y ∧ y ≤ 248)
    (hs : (sizex = 1 ∧ sizey = 1) ∨ (sizex = 0 ∧ sizey = 0))
    (hc : 0 ≤ color ∧ color < 65536) (hb : 0 ≤ color_bcknd ∧ color_bcknd < 65536) :
    charfunc fuel x y ch color sizex sizey flag color_bcknd m
        = some (plot_all (glyph_plots (glyph_columns ch) x y color flag color_bcknd) m)
    ∧ (flag = true →
        (glyph_plots (glyph_columns ch) x y color flag color_bcknd).length = 48)
    ∧ (flag = false →
        (glyph_plots (glyph_columns ch) x y color flag color_bcknd).length
          = set_bits (glyph_columns ch)) := by
  have ex : u8 x = x := u8_of_range hx.1 (by omega)
  have ey : u8 y = y := u8_of_range hy.1 (by omega)
  have ech : u16 (u8 ch) = ch := by unfold u16 u8; omega
  have ec : u16 color = color := by unfold u16; omega
  have eb : u16 color_bcknd = color_bcknd := by unfold u16; omega
  have hin : START ≤ ch ∧ ch ≤ END := by unfold START END; omega
  have eci : u16 ((ch - START) * WIDTH) = (ch - 32) * 6 := by unfold u16 START WIDTH; omega
  have hsz : ((if u8 sizex = 0 ∧ u8 sizey = 0 then (1 : Int) else u8 sizex) ≤ 1
      ∧ (if u8 sizex = 0 ∧ u8 sizey = 0 then (1 : Int) else u8 sizey) ≤ 1) := by
    rcases hs with ⟨h1, h2⟩ | ⟨h1, h2⟩ <;> subst h1 <;> subst h2 <;> decide
  have hbytes : ∀ b ∈ glyph_columns ch, 0 ≤ b ∧ b < 256 := by
    intro b hb
    simp only [glyph_columns, List.mem_map] at hb
    obtain ⟨j, _, rfl⟩ := hb
    exact Font_getD_byte _
  have hlen : (glyph_columns ch).length = 6 := by simp [glyph_columns]
  refine ⟨?_, ?_, ?_⟩
  · simp only [charfunc, ex, ey, ech, ec, eb, hin, eci, hsz, and_self, ↓reduceIte]
    have hspec := char_unscaled_spec y color flag color_bcknd (glyph_columns ch) x m hbytes
    rw [hlen] at hspec
    exact congrArg some hspec
  · intro hf
    subst hf
    simp [glyph_plots, List.range_succ, column_plots_length]
  · intro hf
    subst hf
    have hcols : glyph_columns ch = [(glyph_columns ch).getD 0 0, (glyph_columns ch).getD 1 0,
        (glyph_columns ch).getD 2 0, (glyph_columns ch).getD 3 0, (glyph_columns ch).getD 4 0,
        (glyph_columns ch).getD 5 0] := rfl
    simp only [glyph_plots, set_bits]
    rw [hcols]
    simp [List.range_succ, column_plots_length]

set_option maxRecDepth 100000 in
theorem charfunc_unscaled_plots_witness :
    charfunc 0 10 20 33 0xF800 1 1 false 0 (make_new 160 128)
      = some (plot_all [(12, 21, 0xF800), (12, 22, 0xF800), (13, 20, 0xF800), (13, 21, 0xF800),
          (13, 22, 0xF800), (13, 23, 0xF800), (13, 24, 0xF800), (13, 26, 0xF800),
          (14, 21, 0xF800), (14, 22, 0xF800)] (make_new 160 128)) := by
  have h := (charfunc_unscaled_plots 0 10 20 33 0xF800 1 1 false 0 (make_new 160 128)
    (by decide) (by decide) (by decide) (Or.inl (by decide)) (by decide) (by decide)).1
  rw [h]
  decide

set_option maxRecDepth 100000 in
/-- C15 (the code at the failing input): for the 256-character string "AAA...A" the loop
of `text` never ends, whatever the fuel: its `uint8_t` counter `i` wraps from 255 to 0 and
stays below `str_len = 256`. With one character less (255) the call returns within 256
turns. -/
theorem text_256_characters_never_returns (fuel : Nat) (stack : Nat → Int)
    (next : Option text_local) :
    (List.replicate 256 (65 : Int)).length = 256
    ∧ text fuel 0 0 (List.replicate 256 65) 0xFFFF none stack next (make_new 160 128) = none
    ∧ ∃ m1, text 256 0 0 (List.replicate 255 65) 0xFFFF none stack next (make_new 160 128)
        = some m1 := by
  refine ⟨List.length_replicate 256 65, ?_, ?_⟩
  · have e : ∀ c : Prop, [Decidable c] →
        (if c then ((256 : Nat) : Int) - ((256 : Nat) : Int) % 256
          else ((256 : Nat) : Int)).toNat = 256 := by
      intro c _
      split <;> rfl
    simp only [text, List.length_replicate, e]
    exact text_loop_long_string _ _ _ _ _
      (by rw [List.length_take, strcpy_length, List.length_replicate]; decide)
      fuel 0 _ _ _ le_rfl (by norm_num)
  · exact text_returns 256 0 0 _ 0xFFFF none stack next (make_new 160 128)
      (by rw [List.length_replicate]) (by rw [List.length_replicate])

/-- C16 (the code at the failing input): `inverted(None)` is not a query. Its test for a
missing value is `state==0`, which `None` does not meet, so the call falls to the `else`
branch: it sends inversion-off (0x20), sets the cached `inverted` to false and returns
`None`, not the cached boolean. `power(None)` and `backlight(None)` do return the cached
boolean and leave the machine as it was. -/
theorem inverted_none_is_a_command (m : Machine) :
    (inverted mp_obj_t.mp_const_none m).1 = mp_obj_t.mp_const_none
    ∧ (inverted mp_obj_t.mp_const_none m).1 ≠ mp_obj_new_bool m.dev.inverted
    ∧ (inverted mp_obj_t.mp_const_none m).2.bus = m.bus ++
        [Ev.pin_low Pin.DC, Ev.pin_low Pin.CS, Ev.spi_transfer [0x20], Ev.pin_high Pin.CS]
    ∧ (inverted mp_obj_t.mp_const_none m).2.dev = { m.dev with inverted := false }
    ∧ power mp_obj_t.mp_const_none m = (mp_obj_new_bool m.dev.power_on, m)
    ∧ backlight mp_obj_t.mp_const_none m = (mp_obj_new_bool m.dev.backlight_on, m) := by
  refine ⟨rfl, ?_, rfl, rfl, rfl, rfl⟩
  show mp_obj_t.mp_const_none ≠ mp_obj_new_bool m.dev.inverted
  unfold mp_obj_new_bool
  split <;> decide

/-- C17 (the code at the failing input): for all three controls, commanding a boolean
issues the one action and sets the cached boolean to the value, keeping the other fields,
and for `power` and `backlight` a query made right after returns the value. For `inverted`
it does not: after `inverted(True)`, `inverted(None)` returns `None` and leaves the cached
`inverted` false. -/
theorem inverted_query_after_command_fails (m : Machine) :
    (power mp_obj_t.mp_const_true m).2 = Machine.mk { m.dev with power_on := true }
        (m.bus ++ [Ev.pin_low Pin.DC, Ev.pin_low Pin.CS, Ev.spi_transfer [0x29],
          Ev.pin_high Pin.CS])
    ∧ (power mp_obj_t.mp_const_false m).2 = Machine.mk { m.dev with power_on := false }
        (m.bus ++ [Ev.pin_low Pin.DC, Ev.pin_low Pin.CS, Ev.spi_transfer [0x28],
          Ev.pin_high Pin.CS])
    ∧ (inverted mp_obj_t.mp_const_true m).2 = Machine.mk { m.dev with inverted := true }
        (m.bus ++ [Ev.pin_low Pin.DC, Ev.pin_low Pin.CS, Ev.spi_transfer [0x21],
          Ev.pin_high Pin.CS])
    ∧ (inverted mp_obj_t.mp_const_false m).2 = Machine.mk { m.dev with inverted := false }
        (m.bus ++ [Ev.pin_low Pin.DC, Ev.pin_low Pin.CS, Ev.spi_transfer [0x20],
          Ev.pin_high Pin.CS])
    ∧ (backlight mp_obj_t.mp_const_true m).2 = Machine.mk { m.dev with backlight_on := true }
        (m.bus ++ [Ev.pin_high Pin.BL])
    ∧ (backlight mp_obj_t.mp_const_false m).2 = Machine.mk { m.dev with backlight_on := false }
        (m.bus ++ [Ev.pin_low Pin.BL])
    ∧ (power mp_obj_t.mp_const_none (power mp_obj_t.mp_const_true m).2).1
        = mp_obj_t.mp_const_true
    ∧ (power mp_obj_t.mp_const_none (power mp_obj_t.mp_const_false m).2).1
        = mp_obj_t.mp_const_false
    ∧ (backlight mp_obj_t.mp_const_none (backlight mp_obj_t.mp_const_true m).2).1
        = mp_obj_t.mp_const_true
    ∧ (backlight mp_obj_t.mp_const_none (backlight mp_obj_t.mp_const_false m).2).1
        = mp_obj_t.mp_const_false
    ∧ (inverted mp_obj_t.mp_const_none (inverted mp_obj_t.mp_const_true m).2).1
        = mp_obj_t.mp_const_none
    ∧ (inverted mp_obj_t.mp_const_none (inverted mp_obj_t.mp_const_true m).2).2.dev.inverted
        = false := by
  refine ⟨rfl, rfl, rfl, rfl, rfl, rfl, rfl, rfl, rfl, rfl, rfl, rfl⟩

set_option maxRecDepth 100000 in
/-- C18 (counterexample): the commands `init(0)` sends on a fresh device are not the
claimed sequence: frame-rate-control for the third region (0xB3) is never sent; after 0xB2
comes 0xB4. -/
theorem init_sends_no_third_frame_rate_command :
    frame_cmds (bus_frames false (trace_of (st7735_init (some 0)) (make_new 0 0)))
        ≠ [[0x01], [0x11], [0xB1], [0xB2], [0xB3], [0xB4], [0xC0], [0xC1], [0xC2], [0xC3],
            [0xC4], [0xC5], [0x20], [0x36], [0x3A], [0x2A], [0x2B], [0xE0], [0xE1], [0x13],
            [0x29]]
    ∧ [0xB3] ∉ frame_cmds (bus_frames false (trace_of (st7735_init (some 0)) (make_new 0 0)))
    ∧ frame_cmds (bus_frames false (trace_of (st7735_init (some 0)) (make_new 0 0)))
        = [[0x01], [0x11], [0xB1], [0xB2], [0xB4], [0xC0], [0xC1], [0xC2], [0xC3],
            [0xC4], [0xC5], [0x20], [0x36], [0x3A], [0x2A], [0x2B], [0xE0], [0xE1], [0x13],
            [0x29]] := by
  have h0 : u8 0 = 0 := by decide
  simp only [trace_of, st7735_init, h0, ↓reduceIte]
  simp only [emit_bus, write_cmd_bus, write_data_bus, reset_bus, List.append_assoc,
    List.cons_append, List.nil_append]
  decide

set_option maxRecDepth 100000 in
/-- C18 (amended): for every orientation argument and whatever the level of the DC line
before, the SPI transfers of `init` (the hardware reset makes none) are exactly, in this
order: software-reset (0x01), sleep-out (0x11), frame-rate-control for two regions (0xB1
with 3 data bytes, 0xB2 with 6), display-inversion-control (0xB4), power-control 1 to 5
(0xC0..0xC4), VCOM-control (0xC5), inversion-off (0x20), memory-access-control (0x36) with
one orientation byte, pixel-format-set (0x3A), column-address-set (0x2A), row-address-set
(0x2B), gamma-positive (0xE0) and gamma-negative (0xE1) with 16 data bytes each,
normal-mode-on (0x13), display-on (0x29). -/
theorem init_command_sequence (orient : Option Int) (dc : Bool) (m : Machine) :
    bus_frames dc (trace_of (st7735_init orient) m)
      = [Frame.cmd [0x01], Frame.cmd [0x11],
          Frame.cmd [0xB1], Frame.data [0x01, 0x2C, 0x2D],
          Frame.cmd [0xB2], Frame.data [0x01, 0x2C, 0x2D, 0x01, 0x2C, 0x2D],
          Frame.cmd [0xB4], Frame.data [0x07],
          Frame.cmd [0xC0], Frame.data [0xA2, 0x02, 0x84],
          Frame.cmd [0xC1], Frame.data [0xC5],
          Frame.cmd [0xC2], Frame.data [0x8A, 0x00],
          Frame.cmd [0xC3], Frame.data [0x8A, 0x2A],
          Frame.cmd [0xC4], Frame.data [0x8A, 0xEE],
          Frame.cmd [0xC5], Frame.data [0x0E],
          Frame.cmd [0x20],
          Frame.cmd [0x36],
          Frame.data [if (match orient with | some a => u8 a | none => 0) = 0 then 0xA0 else 0x00],
          Frame.cmd [0x3A], Frame.data [0x05],
          Frame.cmd [0x2A], Frame.data [0x00, 0x01, 0x00, 127],
          Frame.cmd [0x2B], Frame.data [0x00, 0x01, 0x00, 159],
          Frame.cmd [0xE0], Frame.data [0x02, 0x1c, 0x07, 0x12, 0x37, 0x32, 0x29, 0x2d, 0x29,
            0x25, 0x2b, 0x39, 0x00, 0x01, 0x03, 0x10],
          Frame.cmd [0xE1], Frame.data [0x03, 0x1d, 0x07, 0x06, 0x2e, 0x2c, 0x29, 0x2d, 0x2e,
            0x2e, 0x37, 0x3f, 0x00, 0x00, 0x02, 0x10],
          Frame.cmd [0x13], Frame.cmd [0x29]] := by
  by_cases h : (match orient with | some a => u8 a | none => 0) = 0
  · have e : st7735_init orient = st7735_init (some 0) :=
      funext fun k => st7735_init_zero orient k h
    have h0 : u8 0 = 0 := by decide
    rw [e, if_pos h]
    simp only [trace_of, st7735_init, h0, ↓reduceIte]
    simp only [emit_bus, write_cmd_bus, write_data_bus, reset_bus, List.append_assoc,
      List.cons_append, List.nil_append]
    cases dc <;> decide
  · have e : st7735_init orient = st7735_init (some 1) :=
      funext fun k => st7735_init_nonzero orient k h
    have h1 : u8 1 ≠ 0 := by decide
    rw [e, if_neg h]
    simp only [trace_of, st7735_init, h1, ↓reduceIte]
    simp only [emit_bus, write_cmd_bus, write_data_bus, reset_bus, List.append_assoc,
      List.cons_append, List.nil_append]
    cases dc <;> decide

/-- C19: for all coordinates and margins `set_window` appends exactly these events to the
hardware log and nothing else: command 0x2B, the 4 data bytes
`[0, (y0+margin_row) mod 256, 0, (y1+margin_row) mod 256]`, command 0x2A, the 4 data bytes
`[0, (x0+margin_col) mod 256, 0, (x1+margin_col) mod 256]`, command 0x2C without data; it
changes no field of the device. Each primitive that writes samples (`pixel0`, `hline`,
`vline`, `rect_int`) either does nothing or is one `set_window` immediately followed by one
`write_pixels`. -/
theorem set_window_protocol (x0 y0 x1 y1 x y w h color : Int) (dc : Bool) (m : Machine) :
    (set_window x0 y0 x1 y1 m).bus = m.bus ++
      [Ev.pin_low Pin.DC, Ev.pin_low Pin.CS, Ev.spi_transfer [0x2B], Ev.pin_high Pin.CS,
       Ev.pin_high Pin.DC, Ev.pin_low Pin.CS,
       Ev.spi_transfer [0x00, (y0 + m.dev.margin_row) % 256, 0x00,
         (y1 + m.dev.margin_row) % 256],
       Ev.pin_high Pin.CS,
       Ev.pin_low Pin.DC, Ev.pin_low Pin.CS, Ev.spi_transfer [0x2A], Ev.pin_high Pin.CS,
       Ev.pin_high Pin.DC, Ev.pin_low Pin.CS,
       Ev.spi_transfer [0x00, (x0 + m.dev.margin_col) % 256, 0x00,
         (x1 + m.dev.margin_col) % 256],
       Ev.pin_high Pin.CS,
       Ev.pin_low Pin.DC, Ev.pin_low Pin.CS, Ev.spi_transfer [0x2C], Ev.pin_high Pin.CS]
    ∧ (set_window x0 y0 x1 y1 m).dev = m.dev
    ∧ bus_frames dc (trace_of (set_window x0 y0 x1 y1) m)
        = [Frame.cmd [0x2B],
           Frame.data [0x00, (y0 + m.dev.margin_row) % 256, 0x00, (y1 + m.dev.margin_row) % 256],
           Frame.cmd [0x2A],
           Frame.data [0x00, (x0 + m.dev.margin_col) % 256, 0x00, (x1 + m.dev.margin_col) % 256],
           Frame.cmd [0x2C]]
    ∧ pixel0 x y color m = write_pixels 1 color (set_window x y (x + 1) (y + 1) m)
    ∧ (hline x y w color m = m
        ∨ ∃ a b c d n, hline x y w color m = write_pixels n color (set_window a b c d m))
    ∧ (vline x y h color m = m
        ∨ ∃ a b c d n, vline x y h color m = write_pixels n color (set_window a b c d m))
    ∧ (rect_int x y w h color m = m
        ∨ ∃ a b c d n, rect_int x y w h color m
            = write_pixels n color (set_window a b c d m)) := by
  refine ⟨set_window_bus x0 y0 x1 y1 m, rfl, ?_, ?_, ?_, ?_, ?_⟩
  · have hb := set_window_bus x0 y0 x1 y1 { m with bus := [] }
    simp only [List.nil_append] at hb
    simp only [trace_of, hb]
    cases dc <;> rfl
  · simp only [pixel0, write_pixels_u16_color]
    rw [set_window_congr (u8 x) (u8 y) (u8 x + 1) (u8 y + 1) x y (x + 1) (y + 1) m (u8_u8 x)
      (u8_u8 y) (by unfold u8; omega) (by unfold u8; omega)]
  · simp only [hline]
    split
    · exact Or.inl rfl
    · exact Or.inr ⟨_, _, _, _, _, by rw [write_pixels_u16_color]⟩
  · simp only [vline]
    split
    · exact Or.inl rfl
    · exact Or.inr ⟨_, _, _, _, _, by rw [write_pixels_u16_color]⟩
  · simp only [rect_int]
    split
    · exact Or.inl rfl
    · exact Or.inr ⟨_, _, _, _, _, by rw [write_pixels_u16_color]⟩

/-- C20: for a count in 0..65535 and a 16-bit colour, `write_pixels` appends to the
hardware log exactly: DC high (data mode), the peer asserted (CS low) once, `count`
transfers of the two bytes `[color / 256, color mod 256]` (high byte first, `2*count`
bytes in all), the peer released (CS high) once, as the last event. It changes no field of
the device, and with `count = 0` it transfers no byte. -/
theorem write_pixels_stream (count color : Int) (dc : Bool) (m : Machine)
    (hn : 0 ≤ count ∧ count ≤ 65535) (hc : 0 ≤ color ∧ color < 65536) :
    (write_pixels count color m).bus = m.bus ++
      ([Ev.pin_high Pin.DC, Ev.pin_low Pin.CS]
        ++ List.replicate count.toNat (Ev.spi_transfer [color / 256, color % 256])
        ++ [Ev.pin_high Pin.CS])
    ∧ (write_pixels count color m).dev = m.dev
    ∧ trace_of (write_pixels count color) m
        = [Ev.pin_high Pin.DC, Ev.pin_low Pin.CS]
          ++ List.replicate count.toNat (Ev.spi_transfer [color / 256, color % 256])
          ++ [Ev.pin_high Pin.CS]
    ∧ bus_frames dc (trace_of (write_pixels count color) m)
        = List.replicate count.toNat (Frame.data [color / 256, color % 256])
    ∧ bytes_sent (trace_of (write_pixels count color) m) = 2 * count.toNat
    ∧ (trace_of (write_pixels count color) m).count (Ev.pin_low Pin.CS) = 1
    ∧ (trace_of (write_pixels count color) m).count (Ev.pin_high Pin.CS) = 1
    ∧ (count = 0 → trace_of (write_pixels count color) m
        = [Ev.pin_high Pin.DC, Ev.pin_low Pin.CS, Ev.pin_high Pin.CS]) := by
  have en : u16 count = count := by unfold u16; omega
  obtain ⟨b1, b2⟩ := color_bytes color hc.1 hc.2
  have hb : ∀ k : Machine, (write_pixels count color k).bus = k.bus ++
      ([Ev.pin_high Pin.DC, Ev.pin_low Pin.CS]
        ++ List.replicate count.toNat (Ev.spi_transfer [color / 256, color % 256])
        ++ [Ev.pin_high Pin.CS]) := by
    intro k
    simp only [write_pixels, emit_bus, en, b1, b2]
  have ht : trace_of (write_pixels count color) m
      = [Ev.pin_high Pin.DC, Ev.pin_low Pin.CS]
        ++ List.replicate count.toNat (Ev.spi_transfer [color / 256, color % 256])
        ++ [Ev.pin_high Pin.CS] := by
    simp only [trace_of, hb, List.nil_append]
  refine ⟨hb m, rfl, ht, ?_, ?_, ?_, ?_, ?_⟩
  · rw [ht]
    simp only [List.cons_append, List.nil_append, bus_frames, List.append_eq,
      bus_frames_samples, List.append_nil]
  · rw [ht]
    simp only [List.cons_append, List.nil_append, bytes_sent, List.append_eq,
      bytes_sent_samples, List.length_cons, List.length_nil]
    omega
  · rw [ht]
    simp [List.count_replicate]
  · rw [ht]
    simp [List.count_replicate]
  · intro h0
    rw [ht, h0]
    rfl

theorem write_pixels_stream_witness :
    (write_pixels 3 0x1234 (make_new 160 128)).bus
      = [Ev.pin_high Pin.DC, Ev.pin_low Pin.CS, Ev.spi_transfer [0x12, 0x34],
          Ev.spi_transfer [0x12, 0x34], Ev.spi_transfer [0x12, 0x34], Ev.pin_high Pin.CS] :=
  (write_pixels_stream 3 0x1234 false (make_new 160 128) (by decide) (by decide)).1

/-- C21: every drawing operation (`pixel`, `pixel0`, `hline`, `vline`, `rect`, `rect_int`,
`clear`, `set_window`, `write_pixels`, and, whenever they return, `line`, `charfunc` and
`text`) leaves all seven fields of the device as they were; `init` keeps `power_on`,
`inverted`, `backlight_on` and both margins, changing at most `width` and `height`; and the
device controls `power`, `inverted`, `backlight` leave `width`, `height` and the margins as
they were. -/
theorem drawing_keeps_device_fields (fuel : Nat) (x y w h x1 y1 color ch sizex sizey : Int)
    (flag : Bool) (color_bcknd : Int) (string : List Int) (bg : Option (Int × Int))
    (orient : Option Int) (state : mp_obj_t) (stack : Nat → Int) (next : Option text_local)
    (m : Machine) :
    (pixel x y color m).dev = m.dev
    ∧ (pixel0 x y color m).dev = m.dev
    ∧ (hline x y w color m).dev = m.dev
    ∧ (vline x y h color m).dev = m.dev
    ∧ (rect x y w h color m).dev = m.dev
    ∧ (rect_int x y w h color m).dev = m.dev
    ∧ (clear color m).dev = m.dev
    ∧ (set_window x y x1 y1 m).dev = m.dev
    ∧ (write_pixels w color m).dev = m.dev
    ∧ keeps_dev m (line fuel x y x1 y1 color m)
    ∧ keeps_dev m (charfunc fuel x y ch color sizex sizey flag color_bcknd m)
    ∧ keeps_dev m (text fuel x y string color bg stack next m)
    ∧ ((st7735_init orient m).dev.power_on = m.dev.power_on
      ∧ (st7735_init orient m).dev.inverted = m.dev.inverted
      ∧ (st7735_init orient m).dev.backlight_on = m.dev.backlight_on
      ∧ (st7735_init orient m).dev.margin_row = m.dev.margin_row
      ∧ (st7735_init orient m).dev.margin_col = m.dev.margin_col)
    ∧ ((power state m).2.dev.width = m.dev.width
      ∧ (power state m).2.dev.height = m.dev.height
      ∧ (power state m).2.dev.margin_row = m.dev.margin_row
      ∧ (power state m).2.dev.margin_col = m.dev.margin_col)
    ∧ ((inverted state m).2.dev.width = m.dev.width
      ∧ (inverted state m).2.dev.height = m.dev.height
      ∧ (inverted state m).2.dev.margin_row = m.dev.margin_row
      ∧ (inverted state m).2.dev.margin_col = m.dev.margin_col)
    ∧ ((backlight state m).2.dev.width = m.dev.width
      ∧ (backlight state m).2.dev.height = m.dev.height
      ∧ (backlight state m).2.dev.margin_row = m.dev.margin_row
      ∧ (backlight state m).2.dev.margin_col = m.dev.margin_col) := by
  refine ⟨rfl, rfl, hline_dev _ _ _ _ _, vline_dev _ _ _ _ _, rect_int_dev _ _ _ _ _ _,
    rect_int_dev _ _ _ _ _ _, rect_int_dev _ _ _ _ _ _, rfl, rfl, ?_,
    charfunc_dev _ _ _ _ _ _ _ _ _ _, text_loop_dev _ _ _ _ _ _ _ _ _ _, ?_, ?_, ?_, ?_⟩
  · simp only [line]
    split
    · exact vline_dev _ _ _ _ _
    · split
      · exact hline_dev _ _ _ _ _
      · exact line_walk_dev _ _ _ _ _ _ _ _ _ _ _ _
  · by_cases h : (match orient with | some a => u8 a | none => 0) = 0
    · rw [st7735_init_zero orient m h]; exact ⟨rfl, rfl, rfl, rfl, rfl⟩
    · rw [st7735_init_nonzero orient m h]; exact ⟨rfl, rfl, rfl, rfl, rfl⟩
  · simp only [power]
    split
    · exact ⟨rfl, rfl, rfl, rfl⟩
    · split <;> split <;> exact ⟨rfl, rfl, rfl, rfl⟩
  · simp only [inverted]
    split
    · exact ⟨rfl, rfl, rfl, rfl⟩
    · split <;> exact ⟨rfl, rfl, rfl, rfl⟩
  · simp only [backlight]
    split
    · exact ⟨rfl, rfl, rfl, rfl⟩
    · split <;> exact ⟨rfl, rfl, rfl, rfl⟩

/-- C22: for 8-bit endpoints with `x0 ≠ x1` and `y0 ≠ y1`, `line` enters the Bresenham walk
with `dx = |x1-x0|`, `dy = |y1-y0|` and the error started at the truncating quotient
`(dx > dy ? dx : -dy) / 2`, and with fuel for `max dx dy + 1` iterations the walk returns:
it plots exactly `max dx dy + 1` points, the first `(x0,y0)`, the last `(x1,y1)`, and from
each plotted point to the next the dominant-axis coordinate (x when `dx > dy`, y otherwise)
moves by exactly one towards the target. -/
theorem line_bresenham_terminates (fuel : Nat) (x0 y0 x1 y1 color : Int) (m : Machine)
    (hx0 : 0 ≤ x0 ∧ x0 < 256) (hy0 : 0 ≤ y0 ∧ y0 < 256)
    (hx1 : 0 ≤ x1 ∧ x1 < 256) (hy1 : 0 ≤ y1 ∧ y1 < 256)
    (hnx : x0 ≠ x1) (hny : y0 ≠ y1)
    (hfuel : max |x1 - x0| |y1 - y0| + 1 ≤ (fuel : Int)) :
    line fuel x0 y0 x1 y1 color m
        = line_walk fuel x0 y0 x1 y1 (u16 color) |x1 - x0| (if x0 < x1 then 1 else -1)
            |y1 - y0| (if y0 < y1 then 1 else -1)
            (Int.tdiv (if |x1 - x0| > |y1 - y0| then |x1 - x0| else -|y1 - y0|) 2) m
    ∧ ∃ pts : List (Int × Int),
        line fuel x0 y0 x1 y1 color m
          = some (plot_all (pts.map fun p => (p.1, p.2, color)) m)
        ∧ (pts.length : Int) = max |x1 - x0| |y1 - y0| + 1
        ∧ pts.head? = some (x0, y0)
        ∧ pts.getLast? = some (x1, y1)
        ∧ (|x1 - x0| > |y1 - y0| → List.Chain' (fun p p' : Int × Int =>
            p'.1 = p.1 + Int.sign (x1 - x0)) pts)
        ∧ (|x1 - x0| ≤ |y1 - y0| → List.Chain' (fun p p' : Int × Int =>
            p'.2 = p.2 + Int.sign (y1 - y0)) pts) := by
  refine ⟨?_, ?_⟩
  · simp only [line, u8_of_range hx0.1 hx0.2, u8_of_range hy0.1 hy0.2,
      u8_of_range hx1.1 hx1.2, u8_of_range hy1.1 hy1.2, hnx, hny, ↓reduceIte]
  · obtain ⟨pts, h1, h2, h3, h4, h5, h6, _⟩ :=
      line_bresenham fuel x0 y0 x1 y1 color m hx0 hy0 hx1 hy1 hnx hny hfuel
    exact ⟨pts, h1, h2, h3, h4, fun h => (h5 h).imp fun _ _ hp => hp.1,
      fun h => (h6 h).imp fun _ _ hp => hp.1⟩

/-- C22 (witness): the line from (0,0) to (5,2) with fuel 6 plots 6 points, starting at
(0,0) and ending at (5,2), the x coordinate growing by one at each step. -/
theorem line_bresenham_terminates_witness :
    ∃ pts : List (Int × Int),
      line 6 0 0 5 2 0xF800 (make_new 160 128)
        = some (plot_all (pts.map fun p => (p.1, p.2, 0xF800)) (make_new 160 128))
      ∧ (pts.length : Int) = max |(5 : Int) - 0| |(2 : Int) - 0| + 1
      ∧ pts.head? = some (0, 0)
      ∧ pts.getLast? = some (5, 2)
      ∧ (|(5 : Int) - 0| > |(2 : Int) - 0| → List.Chain' (fun p p' : Int × Int =>
          p'.1 = p.1 + Int.sign (5 - 0)) pts)
      ∧ (|(5 : Int) - 0| ≤ |(2 : Int) - 0| → List.Chain' (fun p p' : Int × Int =>
          p'.2 = p.2 + Int.sign (2 - 0)) pts) :=
  (line_bresenham_terminates 6 0 0 5 2 0xF800 (make_new 160 128) (by decide) (by decide)
    (by decide) (by decide) (by decide) (by decide) (by simp)).2

/-- C23: for 8-bit endpoints with `x0 ≠ x1` and `y0 ≠ y1`, the points plotted by the
Bresenham walk of `line` all lie in the bounding box of the endpoints; from each plotted
point to the next, each coordinate either stays or moves by one towards the target; every
plotted coordinate is a value of 0..255 reached without reduction modulo 256; and when both
endpoints are inside the `width` x `height` area, every plotted point is. -/
theorem line_bresenham_stays_in_box (fuel : Nat) (x0 y0 x1 y1 color : Int) (m : Machine)
    (hx0 : 0 ≤ x0 ∧ x0 < 256) (hy0 : 0 ≤ y0 ∧ y0 < 256)
    (hx1 : 0 ≤ x1 ∧ x1 < 256) (hy1 : 0 ≤ y1 ∧ y1 < 256)
    (hnx : x0 ≠ x1) (hny : y0 ≠ y1)
    (hfuel : max |x1 - x0| |y1 - y0| + 1 ≤ (fuel : Int)) :
    ∃ pts : List (Int × Int),
      line fuel x0 y0 x1 y1 color m
        = some (plot_all (pts.map fun p => (p.1, p.2, color)) m)
      ∧ pts ≠ []
      ∧ (∀ p ∈ pts, (min x0 x1 ≤ p.1 ∧ p.1 ≤ max x0 x1) ∧ (min y0 y1 ≤ p.2 ∧ p.2 ≤ max y0 y1))
      ∧ List.Chain' (fun p p' : Int × Int =>
          (p'.1 = p.1 ∨ p'.1 = p.1 + Int.sign (x1 - x0))
            ∧ (p'.2 = p.2 ∨ p'.2 = p.2 + Int.sign (y1 - y0))) pts
      ∧ (∀ p ∈ pts, (0 ≤ p.1 ∧ p.1 < 256) ∧ (0 ≤ p.2 ∧ p.2 < 256))
      ∧ (x0 < m.dev.width → x1 < m.dev.width → y0 < m.dev.height → y1 < m.dev.height →
          ∀ p ∈ pts, (0 ≤ p.1 ∧ p.1 < m.dev.width) ∧ (0 ≤ p.2 ∧ p.2 < m.dev.height)) := by
  obtain ⟨pts, h1, h2, _, _, h5, h6, h7⟩ :=
    line_bresenham fuel x0 y0 x1 y1 color m hx0 hy0 hx1 hy1 hnx hny hfuel
  have hne : pts ≠ [] := by
    intro h
    rw [h] at h2
    have : (0 : Int) ≤ max |x1 - x0| |y1 - y0| := le_max_of_le_left (abs_nonneg _)
    simp only [List.length_nil, Nat.cast_zero] at h2
    omega
  refine ⟨pts, h1, hne, h7, ?_, ?_, ?_⟩
  · by_cases hdom : |x1 - x0| > |y1 - y0|
    · exact (h5 hdom).imp fun _ _ hp => ⟨Or.inr hp.1, hp.2⟩
    · exact (h6 (by omega)).imp fun _ _ hp => ⟨hp.2, Or.inr hp.1⟩
  · intro p hp
    have := h7 p hp
    omega
  · intro a b c d p hp
    have := h7 p hp
    omega

/-- C23 (witness): the line from (10,100) to (3,97) on a 160x128 device plots only points
of the box [3,10] x [97,100], which are inside the display area. -/
theorem line_bresenham_stays_in_box_witness :
    ∃ pts : List (Int × Int),
      line 8 10 100 3 97 0x07E0 (make_new 160 128)
        = some (plot_all (pts.map fun p => (p.1, p.2, 0x07E0)) (make_new 160 128))
      ∧ pts ≠ []
      ∧ (∀ p ∈ pts, (min 10 3 ≤ p.1 ∧ p.1 ≤ max 10 3) ∧ (min 100 97 ≤ p.2 ∧ p.2 ≤ max 100 97))
      ∧ List.Chain' (fun p p' : Int × Int =>
          (p'.1 = p.1 ∨ p'.1 = p.1 + Int.sign (3 - 10))
            ∧ (p'.2 = p.2 ∨ p'.2 = p.2 + Int.sign (97 - 100))) pts
      ∧ (∀ p ∈ pts, (0 ≤ p.1 ∧ p.1 < 256) ∧ (0 ≤ p.2 ∧ p.2 < 256))
      ∧ ((10 : Int) < (make_new 160 128).dev.width → (3 : Int) < (make_new 160 128).dev.width →
          (100 : Int) < (make_new 160 128).dev.height →
          (97 : Int) < (make_new 160 128).dev.height →
          ∀ p ∈ pts, (0 ≤ p.1 ∧ p.1 < (make_new 160 128).dev.width)
            ∧ (0 ≤ p.2 ∧ p.2 < (make_new 160 128).dev.height)) :=
  line_bresenham_stays_in_box 8 10 100 3 97 0x07E0 (make_new 160 128) (by decide) (by decide)
    (by decide) (by decide) (by decide) (by decide) (by simp)

/-- C25: for `0 ≤ x ≤ 254` and `0 ≤ y ≤ 254` and a 16-bit colour, `pixel0` is
`set_window x y (x+1) (y+1)` followed by `write_pixels 1`: on the wire, rows
`y+margin_row .. y+1+margin_row` (0x2B), columns `x+margin_col .. x+1+margin_col` (0x2A),
memory write (0x2C) and then one data transfer of the two colour bytes. The far corner
`(x+1, y+1)` is not reduced modulo 256, so the window has 2 columns and 2 rows, area 4,
while exactly 1 sample follows the memory-write command. -/
theorem pixel0_streams_one_sample_into_two_by_two (x y color : Int) (dc : Bool) (m : Machine)
    (hx : 0 ≤ x ∧ x ≤ 254) (hy : 0 ≤ y ∧ y ≤ 254) (hc : 0 ≤ color ∧ color < 65536) :
    pixel0 x y color m = write_pixels 1 color (set_window x y (x + 1) (y + 1) m)
    ∧ u8 x = x ∧ u8 y = y ∧ u8 (x + 1) = x + 1 ∧ u8 (y + 1) = y + 1
    ∧ bus_frames dc (trace_of (pixel0 x y color) m)
        = [Frame.cmd [0x2B],
           Frame.data [0x00, (y + m.dev.margin_row) % 256, 0x00,
             (y + 1 + m.dev.margin_row) % 256],
           Frame.cmd [0x2A],
           Frame.data [0x00, (x + m.dev.margin_col) % 256, 0x00,
             (x + 1 + m.dev.margin_col) % 256],
           Frame.cmd [0x2C],
           Frame.data [color / 256, color % 256]]
    ∧ cmd_data CMD_RAMWR dc false (trace_of (pixel0 x y color) m) = [[color / 256, color % 256]]
    ∧ (cmd_data CMD_RAMWR dc false (trace_of (pixel0 x y color) m)).length = 1
    ∧ ((x + 1) - x + 1) * ((y + 1) - y + 1) = 4 := by
  have hb : trace_of (pixel0 x y color) m =
      [Ev.pin_low Pin.DC, Ev.pin_low Pin.CS, Ev.spi_transfer [0x2B], Ev.pin_high Pin.CS,
       Ev.pin_high Pin.DC, Ev.pin_low Pin.CS,
       Ev.spi_transfer [0x00, (y + m.dev.margin_row) % 256, 0x00,
         (y + 1 + m.dev.margin_row) % 256],
       Ev.pin_high Pin.CS,
       Ev.pin_low Pin.DC, Ev.pin_low Pin.CS, Ev.spi_transfer [0x2A], Ev.pin_high Pin.CS,
       Ev.pin_high Pin.DC, Ev.pin_low Pin.CS,
       Ev.spi_transfer [0x00, (x + m.dev.margin_col) % 256, 0x00,
         (x + 1 + m.dev.margin_col) % 256],
       Ev.pin_high Pin.CS,
       Ev.pin_low Pin.DC, Ev.pin_low Pin.CS, Ev.spi_transfer [0x2C], Ev.pin_high Pin.CS,
       Ev.pin_high Pin.DC, Ev.pin_low Pin.CS, Ev.spi_transfer [color / 256, color % 256],
       Ev.pin_high Pin.CS] := by
    have h := pixel0_bus x y color { m with bus := [] }
    rw [set_window_bus, (color_bytes color hc.1 hc.2).1, (color_bytes color hc.1 hc.2).2] at h
    simp only [trace_of, h, List.nil_append, List.cons_append]
  have hsel : decide (([0x2C] : List Int) = [CMD_RAMWR]) = true := by decide
  have hn1 : decide (([0x2B] : List Int) = [CMD_RAMWR]) = false := by decide
  have hn2 : decide (([0x2A] : List Int) = [CMD_RAMWR]) = false := by decide
  have hcd : cmd_data CMD_RAMWR dc false (trace_of (pixel0 x y color) m)
      = [[color / 256, color % 256]] := by
    rw [hb]
    simp only [cmd_data, hsel, hn1, hn2, ↓reduceIte, Bool.false_eq_true]
  refine ⟨?_, ?_, ?_, ?_, ?_, ?_, hcd, ?_, by ring⟩
  · simp only [pixel0, write_pixels_u16_color]
    rw [set_window_congr (u8 x) (u8 y) (u8 x + 1) (u8 y + 1) x y (x + 1) (y + 1) m (u8_u8 x)
      (u8_u8 y) (by unfold u8; omega) (by unfold u8; omega)]
  · unfold u8; omega
  · unfold u8; omega
  · unfold u8; omega
  · unfold u8; omega
  · rw [hb]
    cases dc <;> rfl
  · rw [hcd]; rfl

/-- C25 (witness): the pixel (10, 20) in red on a fresh 160x128 device. -/
theorem pixel0_streams_one_sample_into_two_by_two_witness :
    bus_frames false (trace_of (pixel0 10 20 0xF800) (make_new 160 128))
        = [Frame.cmd [0x2B], Frame.data [0x00, 20, 0x00, 21],
           Frame.cmd [0x2A], Frame.data [0x00, 10, 0x00, 11],
           Frame.cmd [0x2C], Frame.data [0xF8, 0x00]] :=
  (pixel0_streams_one_sample_into_two_by_two 10 20 0xF800 false (make_new 160 128)
    (by decide) (by decide) (by decide)).2.2.2.2.2.1

set_option maxRecDepth 100000 in
/-- C26: the hardware trace of `st7735_init` depends on the orientation argument only
through the test `orient == 0`. For any two orientation arguments (absent, or any integer)
the two traces have 152 events, agree on events 0..99 and 101..151, and event 100 is in
both the transfer of one data byte (0xA0 when the 8-bit orientation is 0, 0x00 otherwise)
that follows the memory-access-control command 0x36. When the two orientations are both
zero or both non-zero, the traces are equal and so are the resulting machines. -/
theorem init_branches_only_on_orientation (o1 o2 : Option Int) (dc : Bool) (m : Machine) :
    (trace_of (st7735_init o1) m).length = 152
    ∧ (trace_of (st7735_init o2) m).length = 152
    ∧ (trace_of (st7735_init o1) m).take 100 = (trace_of (st7735_init o2) m).take 100
    ∧ (trace_of (st7735_init o1) m).drop 101 = (trace_of (st7735_init o2) m).drop 101
    ∧ (trace_of (st7735_init o1) m)[100]?
        = some (Ev.spi_transfer [if (o1.map u8).getD 0 = 0 then 0xA0 else 0x00])
    ∧ (trace_of (st7735_init o2) m)[100]?
        = some (Ev.spi_transfer [if (o2.map u8).getD 0 = 0 then 0xA0 else 0x00])
    ∧ (bus_frames dc ((trace_of (st7735_init o1) m).take 101)).drop 21
        = [Frame.cmd [0x36], Frame.data [if (o1.map u8).getD 0 = 0 then 0xA0 else 0x00]]
    ∧ (((o1.map u8).getD 0 = 0 ↔ (o2.map u8).getD 0 = 0) →
        trace_of (st7735_init o1) m = trace_of (st7735_init o2) m
        ∧ st7735_init o1 m = st7735_init o2 m) := by
  rw [init_trace_class o1 m, init_trace_class o2 m]
  by_cases h1 : (o1.map u8).getD 0 = 0 <;> by_cases h2 : (o2.map u8).getD 0 = 0
  · rw [if_pos h1, if_pos h1, if_pos h2, if_pos h2]
    have hm1 : (match o1 with | some a => u8 a | none => 0) = 0 := by cases o1 <;> exact h1
    have hm2 : (match o2 with | some a => u8 a | none => 0) = 0 := by cases o2 <;> exact h2
    refine ⟨by decide, by decide, rfl, rfl, by decide, by decide, ?_, fun _ => ⟨rfl, ?_⟩⟩
    · cases dc <;> decide
    · rw [st7735_init_zero o1 m hm1, st7735_init_zero o2 m hm2]
  · rw [if_pos h1, if_pos h1, if_neg h2, if_neg h2]
    refine ⟨by decide, by decide, by decide, by decide, by decide, by decide, ?_,
      fun h => absurd (h.1 h1) h2⟩
    cases dc <;> decide
  · rw [if_neg h1, if_neg h1, if_pos h2, if_pos h2]
    refine ⟨by decide, by decide, by decide, by decide, by decide, by decide, ?_,
      fun h => absurd (h.2 h2) h1⟩
    cases dc <;> decide
  · rw [if_neg h1, if_neg h1, if_neg h2, if_neg h2]
    have hm1 : (match o1 with | some a => u8 a | none => 0) ≠ 0 := by cases o1 <;> exact h1
    have hm2 : (match o2 with | some a => u8 a | none => 0) ≠ 0 := by cases o2 <;> exact h2
    refine ⟨by decide, by decide, rfl, rfl, by decide, by decide, ?_, fun _ => ⟨rfl, ?_⟩⟩
    · cases dc <;> decide
    · rw [st7735_init_nonzero o1 m hm1, st7735_init_nonzero o2 m hm2]

/-- C26 (witness): orientations 5 and 7 are both non-zero, so `init(5)` and `init(7)` leave
the same machine. -/
theorem init_branches_only_on_orientation_witness :
    st7735_init (some 5) (make_new 0 0) = st7735_init (some 7) (make_new 0 0) :=
  ((init_branches_only_on_orientation (some 5) (some 7) false (make_new 0 0)).2.2.2.2.2.2.2
    (by decide)).2

set_option maxRecDepth 100000 in
/-- C27: the table `Font` has exactly 576 = 96 * 6 bytes, and for every character code
`ch` that passes the range test `START ≤ ch ≤ END` of `charfunc` and every `j < 6`, the
index computed by `charfunc`, the 16-bit `(ch - START) * WIDTH` plus `j`, is
`(ch - 32) * 6 + j`, is not negative and is below 576, so the table has an entry there (the
default of the model's lookup is never used). -/
theorem font_lookup_in_table (ch : Int) (j : Nat) (hch : START ≤ ch ∧ ch ≤ END)
    (hj : j < 6) :
    Font.length = 576
    ∧ Font.length = 96 * 6
    ∧ u16 ((u16 (u8 ch) - START) * WIDTH) + (j : Int) = (ch - 32) * 6 + (j : Int)
    ∧ 0 ≤ (ch - 32) * 6 + (j : Int)
    ∧ (ch - 32) * 6 + (j : Int) < 576
    ∧ ((ch - 32) * 6 + (j : Int)).toNat < Font.length
    ∧ Font[((ch - 32) * 6 + (j : Int)).toNat]?
        = some (Font.getD (u16 ((u16 (u8 ch) - START) * WIDTH) + (j : Int)).toNat 0) := by
  have hlen : Font.length = 576 := by decide
  have hr := hch
  unfold START END at hr
  have e1 : u16 (u8 ch) = ch := by unfold u16 u8; omega
  have e2 : u16 ((ch - 32) * 6) = (ch - 32) * 6 := by unfold u16; omega
  have e : u16 ((u16 (u8 ch) - START) * WIDTH) + (j : Int) = (ch - 32) * 6 + (j : Int) := by
    rw [e1]
    unfold START WIDTH
    rw [e2]
  have hlt : ((ch - 32) * 6 + (j : Int)).toNat < Font.length := by rw [hlen]; omega
  refine ⟨hlen, hlen, e, by omega, by omega, hlt, ?_⟩
  rw [e, List.getD_eq_getElem?_getD, List.getElem?_eq_getElem hlt]
  rfl

/-- C27 (witness): the last column (j = 5) of the last accepted code (127) is entry 575,
the last of the table. -/
theorem font_lookup_in_table_witness :
    ((127 - 32) * 6 + ((5 : Nat) : Int)).toNat < Font.length :=
  (font_lookup_in_table 127 5 (by decide) (by decide)).2.2.2.2.2.1

/-- C28: for every command code `write_cmd` appends to the hardware log exactly DC low, CS
low, one SPI transfer of the single byte `cmd mod 256`, CS high; for every byte sequence
`write_data` appends exactly DC high, CS low, one SPI transfer of the whole sequence, CS
high. Both leave the device fields unchanged, end with CS high, and are read by the
controller as one command frame, respectively one data frame, whatever the level of DC
before. -/
theorem write_cmd_write_data_framing (cmd : Int) (data : List Int) (dc : Bool)
    (m : Machine) :
    (write_cmd cmd m).bus = m.bus ++
      [Ev.pin_low Pin.DC, Ev.pin_low Pin.CS, Ev.spi_transfer [cmd % 256], Ev.pin_high Pin.CS]
    ∧ (write_data data m).bus = m.bus ++
      [Ev.pin_high Pin.DC, Ev.pin_low Pin.CS, Ev.spi_transfer data, Ev.pin_high Pin.CS]
    ∧ (write_cmd cmd m).dev = m.dev
    ∧ (write_data data m).dev = m.dev
    ∧ (write_cmd cmd m).bus.getLast? = some (Ev.pin_high Pin.CS)
    ∧ (write_data data m).bus.getLast? = some (Ev.pin_high Pin.CS)
    ∧ bus_frames dc (trace_of (write_cmd cmd) m) = [Frame.cmd [cmd % 256]]
    ∧ bus_frames dc (trace_of (write_data data) m) = [Frame.data data]
    ∧ bytes_sent (trace_of (write_cmd cmd) m) = 1
    ∧ bytes_sent (trace_of (write_data data) m) = data.length := by
  refine ⟨rfl, rfl, rfl, rfl, ?_, ?_, ?_, ?_, ?_, ?_⟩
  · rw [write_cmd_bus]
    simp
  · rw [write_data_bus]
    simp
  · cases dc <;> rfl
  · cases dc <;> rfl
  · rfl
  · simp [trace_of, write_data_bus, bytes_sent]

end OphyraTft
